import Mathlib

/-!
Verification of the resilient multi-provider LLM orchestration layer
(`agents` package): provider key rotation, retry policy with exponential
backoff, provider registry, JSON salvage heuristics and the batch
pipeline.  Python strings are modelled as `List Char`, floats as `ℚ`,
and the nondeterministic collaborators (the network backend and the
jitter source) as explicit oracle functions.
-/

namespace Agents

/-! ### Basic string operations (Python `str` helpers over `List Char`) -/

/-- Python `s.lower()` (character-wise lowercasing). -/
def toLowerL (s : List Char) : List Char := s.map Char.toLower

/-- Python `pat in s` (substring containment).  The empty pattern is
contained in every string, as in Python. -/
def containsSub (pat s : List Char) : Bool :=
  match s with
  | [] => pat.isEmpty
  | _ :: t => pat.isPrefixOf s || containsSub pat t

/-! ### `base/provider.py` — `BaseLLMProvider` -/

/-- State of a provider instance: the fields set by
`BaseLLMProvider.__init__` that the rotation logic reads and writes
(`api_keys`, `current_key_index`).  Keys are opaque strings. -/
structure ProviderState where
  apiKeys : List String
  currentKeyIndex : Nat
  deriving Repr, DecidableEq

/-- `BaseLLMProvider.__init__`: `current_key_index = 0`. -/
def providerInit (keys : List String) : ProviderState :=
  { apiKeys := keys, currentKeyIndex := 0 }

/-- `BaseLLMProvider.get_next_key`:
`key = self.api_keys[self.current_key_index]`;
`self.current_key_index = (self.current_key_index + 1) % len(self.api_keys)`;
`return key`.  Indexing is total here via `getD`; every theorem about it
assumes a non-empty key list, as the Python code does. -/
def get_next_key (st : ProviderState) : String × ProviderState :=
  (st.apiKeys.getD st.currentKeyIndex "",
   { st with currentKeyIndex := (st.currentKeyIndex + 1) % st.apiKeys.length })

/-- The state transition of one `get_next_key` call. -/
def rotateStep (st : ProviderState) : ProviderState := (get_next_key st).2

/-! ### Retry policy (`llm/gemini.py` / `llm/openai.py` `generate`) -/

/-- Retry tunables of one provider (`max_retries`, `retry_base_delay`,
`jitter_max`). -/
structure RetryCfg where
  maxRetries : Nat
  baseDelay : ℚ
  jitterMax : ℚ
  deriving Repr, DecidableEq

/-- Default configuration of both providers
(`MAX_RETRIES = 5`, `RETRY_BASE_DELAY = 1.0`, `RETRY_JITTER_MAX = 0.5`). -/
def defaultCfg : RetryCfg := { maxRetries := 5, baseDelay := 1, jitterMax := 1/2 }

/-- Outcome of one underlying backend call: either a response carrying
text (possibly empty — an empty text makes the provider raise a
`ValueError` that its own handler then classifies), or an exception with
a message. -/
inductive BackendOutcome where
  | text (t : List Char)
  | exn (msg : List Char)
  deriving Repr, DecidableEq

/-- Telemetry statuses of `logger.log_api_call`. -/
inductive LogStatus where
  | success
  | rateLimited
  | error
  | failedAfterRetries
  deriving Repr, DecidableEq

/-- One telemetry record, restricted to the fields the claims are about:
the status and the `api_key_index` value the code passes
(`api_key_index=self.current_key_index`). -/
structure LogRecord where
  status : LogStatus
  apiKeyIndex : Nat
  deriving Repr, DecidableEq

/-- One backend attempt of a `generate` call: the index of the key
actually used (`self.current_key_index` at the time of
`get_next_key`, i.e. the index of the key handed to `_get_client`),
the backend outcome, and the telemetry record the attempt emitted. -/
structure AttemptInfo where
  usedKeyIndex : Nat
  outcome : BackendOutcome
  record : LogRecord
  deriving Repr, DecidableEq

/-- Result of one logical `generate` call. -/
inductive GenResult where
  | success (text : List Char)
  | terminal (msg : List Char)
  | exhausted
  deriving Repr, DecidableEq

/-- Full trace of one logical `generate` call. -/
structure GenTrace where
  attempts : List AttemptInfo
  delays : List ℚ
  records : List LogRecord
  result : GenResult
  finalState : ProviderState
  deriving Repr, DecidableEq

/-- The retry classifier both providers use:
`any(keyword in error_msg for keyword in markers)` with
`error_msg = str(e).lower()`. -/
def retryableError (markers : List (List Char)) (msg : List Char) : Bool :=
  markers.any (fun m => containsSub m (toLowerL msg))

/-- `gemini.py` marker list: `['rate', 'quota', '429', '500', '503']`. -/
def geminiMarkers : List (List Char) :=
  ["rate".data, "quota".data, "429".data, "500".data, "503".data]

/-- `openai.py` marker list: `['rate', 'limit', '429', '500', '503']`. -/
def openaiMarkers : List (List Char) :=
  ["rate".data, "limit".data, "429".data, "500".data, "503".data]

/-- `gemini.py`: message of the `ValueError` raised on an empty/blocked
response. -/
def geminiEmptyMsg : List Char := "Gemini trả về response trống hoặc bị block (Safety)".data

/-- `openai.py`: message of the `ValueError` raised on an empty response. -/
def openaiEmptyMsg : List Char := "OpenAI trả về response trống".data

/-- The body of the `for attempt in range(1, max_retries + 1)` loop of
`generate`, recursing on the number of remaining attempts.  `backend n`
is the outcome of the `n`-th underlying call (1-based), `jitter n` the
value of `random.uniform(0, jitter_max)` before retry `n`.  When the
loop exhausts, the code logs a `failed_after_retries` record and raises. -/
def genFrom (markers : List (List Char)) (emptyMsg : List Char)
    (cfg : RetryCfg) (backend : Nat → BackendOutcome) (jitter : Nat → ℚ)
    (attempt : Nat) (remaining : Nat) (st : ProviderState) : GenTrace :=
  match remaining with
  | 0 =>
      { attempts := [], delays := [],
        records := [{ status := .failedAfterRetries, apiKeyIndex := st.currentKeyIndex }],
        result := .exhausted, finalState := st }
  | r + 1 =>
      let usedIdx := st.currentKeyIndex
      let st' := rotateStep st
      let onError : BackendOutcome → List Char → GenTrace := fun out m =>
        if retryableError markers m then
          let rec_ : LogRecord := { status := .rateLimited, apiKeyIndex := st'.currentKeyIndex }
          let wait : ℚ := cfg.baseDelay * 2 ^ (attempt - 1) + jitter attempt
          let rest := genFrom markers emptyMsg cfg backend jitter (attempt + 1) r st'
          { attempts := { usedKeyIndex := usedIdx, outcome := out, record := rec_ } :: rest.attempts,
            delays := wait :: rest.delays,
            records := rec_ :: rest.records,
            result := rest.result, finalState := rest.finalState }
        else
          let rec_ : LogRecord := { status := .error, apiKeyIndex := st'.currentKeyIndex }
          { attempts := [{ usedKeyIndex := usedIdx, outcome := out, record := rec_ }],
            delays := [], records := [rec_],
            result := .terminal m, finalState := st' }
      match backend attempt with
      | .text t =>
          if t.isEmpty then
            onError (.text t) emptyMsg
          else
            let rec_ : LogRecord := { status := .success, apiKeyIndex := st'.currentKeyIndex }
            { attempts := [{ usedKeyIndex := usedIdx, outcome := .text t, record := rec_ }],
              delays := [], records := [rec_], result := .success t, finalState := st' }
      | .exn m => onError (.exn m) m

/-- `GeminiProvider.generate` as a state/trace function. -/
def geminiGenerate (cfg : RetryCfg) (backend : Nat → BackendOutcome)
    (jitter : Nat → ℚ) (st : ProviderState) : GenTrace :=
  genFrom geminiMarkers geminiEmptyMsg cfg backend jitter 1 cfg.maxRetries st

/-- `OpenAIProvider.generate` as a state/trace function. -/
def openaiGenerate (cfg : RetryCfg) (backend : Nat → BackendOutcome)
    (jitter : Nat → ℚ) (st : ProviderState) : GenTrace :=
  genFrom openaiMarkers openaiEmptyMsg cfg backend jitter 1 cfg.maxRetries st

/-! ### `llm/manager.py` — `LLMManager` -/

/-- Python `str.strip()` whitespace characters (ASCII). -/
def isPyWs (c : Char) : Bool :=
  c = ' ' || c = '\t' || c = '\n' || c = '\r' || c = '\x0b' || c = '\x0c'

/-- Drop trailing Python whitespace. -/
def stripEnd (s : List Char) : List Char := (s.reverse.dropWhile isPyWs).reverse

/-- Python `str.strip()`. -/
def pyStrip (s : List Char) : List Char := stripEnd (s.dropWhile isPyWs)

/-- `[k.strip() for k in raw.split(",") if k.strip()]` — key-list parsing in
`LLMManager._load_providers`. -/
def parseKeys (raw : List Char) : List (List Char) :=
  ((raw.splitOn ',').map pyStrip).filter (fun k => ¬ k.isEmpty)

/-- The registry state built by `LLMManager._load_providers`: the ordered
name → provider mapping (Python dict preserves insertion order: gemini first,
then openai) and the resolved default name. -/
structure Registry where
  providers : List (List Char × List (List Char))
  defaultProvider : List Char
  deriving Repr, DecidableEq

/-- `LLMManager._load_providers`, parameterised by the raw environment values
`GEMINI_API_KEYS`, `OPENAI_API_KEYS` and the result of
`os.getenv("DEFAULT_AI_PROVIDER", "gemini")`.  Returns `none` for the
`ValueError` raised when no provider loads. -/
def load_providers (geminiRaw openaiRaw defaultEnv : List Char) : Option Registry :=
  let g := parseKeys geminiRaw
  let o := parseKeys openaiRaw
  let provs := (if g.isEmpty then [] else [("gemini".data, g)])
    ++ (if o.isEmpty then [] else [("openai".data, o)])
  if provs.isEmpty then none
  else
    let requested := toLowerL defaultEnv
    let dflt :=
      if provs.any (fun p => p.1 == requested) then requested
      else (provs.headD ("".data, [])).1
    some { providers := provs, defaultProvider := dflt }

/-- `LLMManager.get_provider`: `provider_name = provider or self.default_provider`
(so `None` and the empty string both resolve to the default), then a dict
lookup that raises `ValueError` (modelled `none`) for an unknown name. -/
def get_provider (reg : Registry) (name : Option (List Char)) :
    Option (List Char × List (List Char)) :=
  let pname :=
    match name with
    | none => reg.defaultProvider
    | some n => if n.isEmpty then reg.defaultProvider else n
  reg.providers.find? (fun p => p.1 == pname)

/-- `LLMManager.close_all`: `for provider in self.providers.values(): await
provider.close()`.  Each provider's close behaviour is modelled by its
outcome (`none` = returns, `some e` = raises `e`).  Returns the number of
`close()` calls actually made and the exception that propagated, if any.
(Both concrete providers' `close` bodies are `pass` and never raise.) -/
def close_all : List (Option (List Char)) → Nat × Option (List Char)
  | [] => (0, none)
  | none :: rest => ((close_all rest).1 + 1, (close_all rest).2)
  | some e :: _ => (1, some e)

/-! ### JSON values and `json.loads` (Python stdlib collaborator used by
`utils/optimizer.py` and the workflow) -/

/-- Python JSON values as produced by `json.loads`.  Numbers are kept as
their source lexeme (the claims never depend on numeric magnitude); objects
are insertion-ordered association lists, and a duplicate key overwrites the
value at its original position, as in a Python dict. -/
inductive JsonValue where
  | null
  | bool (b : Bool)
  | num (lexeme : List Char)
  | str (s : List Char)
  | arr (elems : List JsonValue)
  | obj (members : List (List Char × JsonValue))

/-- JSON whitespace (`json.decoder.WHITESPACE`): space, tab, newline,
carriage return. -/
def isJsonWs (c : Char) : Bool := c = ' ' || c = '\t' || c = '\n' || c = '\r'

/-- Skip JSON whitespace. -/
def skipWs (s : List Char) : List Char := s.dropWhile isJsonWs

/-- Python dict assignment `d[k] = v`: overwrite in place, else append. -/
def setKey : List (List Char × JsonValue) → List Char → JsonValue →
    List (List Char × JsonValue)
  | [], k, v => [(k, v)]
  | (k', v') :: rest, k, v =>
      if k' = k then (k', v) :: rest else (k', v') :: setKey rest k v

/-- The two-character string escapes of the JSON grammar. -/
def escapeChar : Char → Option Char
  | '"' => some '"'
  | '\\' => some '\\'
  | '/' => some '/'
  | 'b' => some '\x08'
  | 'f' => some '\x0c'
  | 'n' => some '\n'
  | 'r' => some '\r'
  | 't' => some '\t'
  | _ => none

/-- Hexadecimal digit value. -/
def hexDigit? (c : Char) : Option Nat :=
  if '0' ≤ c ∧ c ≤ '9' then some (c.toNat - '0'.toNat)
  else if 'a' ≤ c ∧ c ≤ 'f' then some (c.toNat - 'a'.toNat + 10)
  else if 'A' ≤ c ∧ c ≤ 'F' then some (c.toNat - 'A'.toNat + 10)
  else none

/-- Four hex digits. -/
def hex4 (h1 h2 h3 h4 : Char) : Option Nat :=
  match hexDigit? h1, hexDigit? h2, hexDigit? h3, hexDigit? h4 with
  | some a, some b, some c, some d => some (((a * 16 + b) * 16 + c) * 16 + d)
  | _, _, _, _ => none

/-- Digit run helpers for the number grammar
`-?(0|[1-9][0-9]*)(\.[0-9]+)?([eE][+-]?[0-9]+)?`. -/
def fracPart : List Char → List Char × List Char
  | '.' :: r =>
      if (r.takeWhile Char.isDigit).isEmpty then ([], '.' :: r)
      else ('.' :: r.takeWhile Char.isDigit, r.dropWhile Char.isDigit)
  | t => ([], t)

def expPart : List Char → List Char × List Char
  | e :: r =>
      if e = 'e' ∨ e = 'E' then
        match r with
        | s :: r2 =>
            if s = '+' ∨ s = '-' then
              if (r2.takeWhile Char.isDigit).isEmpty then ([], e :: s :: r2)
              else (e :: s :: r2.takeWhile Char.isDigit, r2.dropWhile Char.isDigit)
            else
              if (r.takeWhile Char.isDigit).isEmpty then ([], e :: r)
              else (e :: r.takeWhile Char.isDigit, r.dropWhile Char.isDigit)
        | [] => ([], [e])
      else ([], e :: r)
  | [] => ([], [])

/-- The unsigned part of `json.scanner.NUMBER_RE`:
`(0|[1-9][0-9]*)(\.[0-9]+)?([eE][+-]?[0-9]+)?`. -/
def numCore : List Char → Option (List Char × List Char)
  | [] => none
  | c :: r =>
      if c = '0' then
        let f := fracPart r
        let e := expPart f.2
        some ('0' :: f.1 ++ e.1, e.2)
      else if c.isDigit then
        let ipart := c :: r.takeWhile Char.isDigit
        let rest := r.dropWhile Char.isDigit
        let f := fracPart rest
        let e := expPart f.2
        some (ipart ++ f.1 ++ e.1, e.2)
      else none

/-- `json.scanner.NUMBER_RE` matched at the current position: returns the
lexeme and the remaining input.  `0` may not be followed by more integer
digits. -/
def parseNumber (s : List Char) : Option (List Char × List Char) :=
  match s with
  | [] => none
  | c :: r =>
      if c = '-' then (numCore r).map (fun p => ('-' :: p.1, p.2))
      else numCore (c :: r)

/-- JSON string body after the opening quote, with escapes.  A `\uXXXX`
escape is mapped through `Char.ofNat` (surrogate pairs are not combined —
no claim depends on astral-plane escapes).  Raw control characters are
rejected (`strict=True`). -/
def parseStringBody : List Char → Option (List Char × List Char)
  | [] => none
  | c :: rest =>
      if c = '"' then some ([], rest)
      else if c = '\\' then
        match rest with
        | [] => none
        | e :: r2 =>
            if e = 'u' then
              match r2 with
              | h1 :: h2 :: h3 :: h4 :: r3 =>
                  match hex4 h1 h2 h3 h4 with
                  | some n =>
                      match parseStringBody r3 with
                      | some (tl, rr) => some (Char.ofNat n :: tl, rr)
                      | none => none
                  | none => none
              | _ => none
            else
              match escapeChar e with
              | some ec =>
                  match parseStringBody r2 with
                  | some (tl, rr) => some (ec :: tl, rr)
                  | none => none
              | none => none
      else if c.toNat < 0x20 then none
      else
        match parseStringBody rest with
        | some (tl, rr) => some (c :: tl, rr)
        | none => none

mutual

/-- `json.scanner.py_make_scanner._scan_once`: one JSON value at the head of
the input (no leading whitespace), returning the value and the rest. -/
def parseValue : Nat → List Char → Option (JsonValue × List Char)
  | 0, _ => none
  | _ + 1, [] => none
  | fuel + 1, c :: rest =>
      if c = '"' then
        match parseStringBody rest with
        | some (s, r) => some (.str s, r)
        | none => none
      else if c = '{' then parseObjBody fuel (skipWs rest)
      else if c = '[' then parseArrBody fuel (skipWs rest)
      else if "null".data.isPrefixOf (c :: rest) then some (.null, rest.drop 3)
      else if "true".data.isPrefixOf (c :: rest) then some (.bool true, rest.drop 3)
      else if "false".data.isPrefixOf (c :: rest) then some (.bool false, rest.drop 4)
      else if c = '-' ∨ c.isDigit then
        match parseNumber (c :: rest) with
        | some (lex, r) => some (.num lex, r)
        | none =>
            if "-Infinity".data.isPrefixOf (c :: rest) then
              some (.num "-Infinity".data, rest.drop 8)
            else none
      else if "NaN".data.isPrefixOf (c :: rest) then some (.num "NaN".data, rest.drop 2)
      else if "Infinity".data.isPrefixOf (c :: rest) then
        some (.num "Infinity".data, rest.drop 7)
      else none

/-- `json.decoder.JSONObject` after the `{` (whitespace already skipped). -/
def parseObjBody : Nat → List Char → Option (JsonValue × List Char)
  | 0, _ => none
  | fuel + 1, [] => parseMembers fuel [] []
  | fuel + 1, c :: r =>
      if c = '}' then some (.obj [], r)
      else parseMembers fuel (c :: r) []

/-- The member loop of `JSONObject`: `"key" : value (, "key" : value)* }`. -/
def parseMembers : Nat → List Char → List (List Char × JsonValue) →
    Option (JsonValue × List Char)
  | 0, _, _ => none
  | _ + 1, [], _ => none
  | fuel + 1, c :: rest, acc =>
      if c = '"' then
        match parseStringBody rest with
        | some (k, r1) =>
            match skipWs r1 with
            | [] => none
            | c2 :: r3 =>
                if c2 = ':' then
                  match parseValue fuel (skipWs r3) with
                  | some (v, r4) =>
                      match skipWs r4 with
                      | [] => none
                      | c3 :: r6 =>
                          if c3 = ',' then parseMembers fuel (skipWs r6) (setKey acc k v)
                          else if c3 = '}' then some (.obj (setKey acc k v), r6)
                          else none
                  | none => none
                else none
        | none => none
      else none

/-- `json.decoder.JSONArray` after the `[` (whitespace already skipped). -/
def parseArrBody : Nat → List Char → Option (JsonValue × List Char)
  | 0, _ => none
  | fuel + 1, [] => parseElems fuel [] []
  | fuel + 1, c :: r =>
      if c = ']' then some (.arr [], r)
      else parseElems fuel (c :: r) []

/-- The element loop of `JSONArray`. -/
def parseElems : Nat → List Char → List JsonValue → Option (JsonValue × List Char)
  | 0, _, _ => none
  | fuel + 1, s, acc =>
      match parseValue fuel s with
      | some (v, r1) =>
          match skipWs r1 with
          | [] => none
          | c :: r2 =>
              if c = ',' then parseElems fuel (skipWs r2) (acc ++ [v])
              else if c = ']' then some (.arr (acc ++ [v]), r2)
              else none
      | none => none

end

/-- `json.loads`: parse one value surrounded by optional whitespace; any
trailing non-whitespace raises ("Extra data"), modelled as `none`.  The fuel
`5 * length + 10` dominates the parser's call depth, which advances past at
least one input character for every five fuel ticks. -/
def json_loads (s : List Char) : Option JsonValue :=
  match parseValue (5 * s.length + 10) (skipWs s) with
  | some (v, rest) => if (skipWs rest).isEmpty then some v else none
  | none => none

/-! ### `utils/optimizer.py` — `ContextOptimizer` -/

/-- `ContextOptimizer.compact_history` with its default `max_chars`. -/
def compact_history (content : List Char) : List Char :=
  if content.length ≤ 100000 then content
  else content.take 100000 ++ "\n...[TRUNCATED]...".data

/-- Python `str.replace(old, new)` (leftmost, non-overlapping), by fuel
recursion; `replaceAll` below supplies sufficient fuel. -/
def replaceAllF (pat rep : List Char) : Nat → List Char → List Char
  | 0, s => s
  | _ + 1, [] => []
  | fuel + 1, c :: rest =>
      if pat ≠ [] ∧ pat.isPrefixOf (c :: rest) then
        rep ++ replaceAllF pat rep fuel ((c :: rest).drop pat.length)
      else
        c :: replaceAllF pat rep fuel rest

/-- Python `s.replace(pat, rep)`. -/
def replaceAll (pat rep s : List Char) : List Char := replaceAllF pat rep s.length s

/-- `re.search(r'\{.*\}', text, re.DOTALL)`: with a greedy `.*` under
DOTALL, the match (if any) spans from the first `{` to the last `}` of the
whole text, provided the latter comes after the former. -/
def regexSearchBraces (t : List Char) : Option (List Char) :=
  match t.findIdx? (· = '{'), t.reverse.findIdx? (· = '}') with
  | some i, some jr =>
      let j := t.length - 1 - jr
      if i < j then some ((t.drop i).take (j - i + 1)) else none
  | _, _ => none

/-- `ContextOptimizer.parse_json_safely`: direct parse; else strip the
markdown fences (`replace("```json","")`, `replace("```","")`, `strip()`)
and parse; else parse the greedy regex span; else `None`. -/
def parse_json_safely (text : List Char) : Option JsonValue :=
  match json_loads text with
  | some v => some v
  | none =>
      match json_loads (pyStrip (replaceAll "```".data []
          (replaceAll "```json".data [] text))) with
      | some v => some v
      | none =>
          match regexSearchBraces text with
          | some span =>
              match json_loads span with
              | some v => some v
              | none => none
          | none => none

/-- Modelled from the claim's words, for comparison with the code's greedy
regex: "the first brace-delimited object of the text" — the span from the
first `{` through its matching `}`, by depth counting. -/
def braceScan : List Char → Nat → List Char → Option (List Char)
  | [], _, _ => none
  | c :: r, depth, acc =>
      if c = '{' then braceScan r (depth + 1) (acc ++ [c])
      else if c = '}' then
        if depth = 1 then some (acc ++ [c])
        else if depth = 0 then none
        else braceScan r (depth - 1) (acc ++ [c])
      else braceScan r depth (acc ++ [c])

def specFirstBraceObject (t : List Char) : Option (List Char) :=
  braceScan (t.dropWhile (fun c => !(c == '{'))) 0 []

/-- The round-trip scenario of the spec: the response wrapped in markdown
fences, "```json" before and "```" after. -/
def wrapFences (s : List Char) : List Char := "```json".data ++ s ++ "```".data

/-! ### `workflows/transcript_to_json.py` -/

/-- Python truthiness of a decoded JSON value (`if not data:`). -/
def numIsZero (lex : List Char) : Bool :=
  (lex.takeWhile (fun c => !(c == 'e' || c == 'E'))).all
    (fun c => c == '0' || c == '.' || c == '-')

def pyTruthy : JsonValue → Bool
  | .null => false
  | .bool b => b
  | .num lex => !(numIsZero lex)
  | .str s => !s.isEmpty
  | .arr l => !l.isEmpty
  | .obj m => !m.isEmpty

/-- An artifact written by `process_file` into the output directory: the
success JSON at the derived output path, or the raw-text error artifact at
the derived error path. -/
inductive Artifact where
  | outputJson (data : JsonValue)
  | errorText (raw : List Char)

inductive JobStatus where
  | success
  | error
  deriving Repr, DecidableEq

/-- `process_file`, parameterised by the outcome of reading the input file
(`.error` = an `OSError`-like exception from `open`/`read`) and the outcome
of the logical `generate` call.  Returns the artifacts written and the Job
Result status.  The final `except Exception` clause returns an error result
without writing anything. -/
def process_file (readRes : Except (List Char) (List Char)) (genRes : GenResult) :
    List Artifact × JobStatus :=
  match readRes with
  | .error _ => ([], .error)
  | .ok _ =>
      match genRes with
      | .terminal _ => ([], .error)
      | .exhausted => ([], .error)
      | .success jsonStr =>
          match parse_json_safely jsonStr with
          | some v =>
              if pyTruthy v then ([.outputJson v], .success)
              else
                match json_loads jsonStr with
                | some w => ([.outputJson w], .success)
                | none => ([.errorText jsonStr], .error)
          | none =>
              match json_loads jsonStr with
              | some w => ([.outputJson w], .success)
              | none => ([.errorText jsonStr], .error)

structure JobSummary where
  successCount : Nat
  errorCount : Nat
  deriving Repr, DecidableEq

/-- Result of `run_workflow`: early returns (`None` in Python) for a missing
input directory, an empty scan, and the all-skipped case; otherwise the
per-file results plus the computed summary. -/
inductive RunOutcome where
  | noInputDir
  | noneFound
  | allSkipped (skipped : Nat)
  | ran (results : List JobStatus) (summary : JobSummary)

/-- Whether a `run_workflow` outcome carries a computed Job Summary. -/
def RunOutcome.producesSummary : RunOutcome → Bool
  | .ran _ _ => true
  | _ => false

/-- `run_workflow`, parameterised by the directory scan (`entries` =
`os.listdir`), the output-existence check (`os.path.exists` on the derived
output path) and the per-file processing (worker body).  Returns the outcome
and all artifacts written. -/
def run_workflow (dirExists : Bool) (entries : List (List Char))
    (hasOutput : List Char → Bool)
    (process : List Char → List Artifact × JobStatus) : RunOutcome × List Artifact :=
  if !dirExists then (.noInputDir, [])
  else
    let eligible := entries.filter (fun f => ".f.txt".data.isSuffixOf f)
    let files := eligible.filter (fun f => !hasOutput f)
    let skipped := (eligible.filter (fun f => hasOutput f)).length
    if files.isEmpty && skipped == 0 then (.noneFound, [])
    else if files.isEmpty then (.allSkipped skipped, [])
    else
      let results := files.map process
      let succ := (results.filter (fun r => r.2 == JobStatus.success)).length
      (.ran (results.map (·.2)) ⟨succ, results.length - succ⟩,
        (results.map (·.1)).flatten)

/-! ### Lemmas about key rotation -/

lemma rotateStep_apiKeys (st : ProviderState) : (rotateStep st).apiKeys = st.apiKeys := rfl

lemma rotate_iterate (keys : List String) (m : Nat) :
    rotateStep^[m] (providerInit keys) =
      { apiKeys := keys, currentKeyIndex := m % keys.length } := by
  induction m with
  | zero => simp [providerInit]
  | succ m ih =>
      rw [Function.iterate_succ_apply', ih]
      simp only [rotateStep, get_next_key]
      congr 1
      rw [Nat.mod_add_mod]

/-! ### Lemmas about the retry loop -/

lemma genFrom_attempts_le (markers : List (List Char)) (emptyMsg : List Char)
    (cfg : RetryCfg) (backend : Nat → BackendOutcome) (jitter : Nat → ℚ) :
    ∀ r a st, (genFrom markers emptyMsg cfg backend jitter a r st).attempts.length ≤ r := by
  intro r
  induction r with
  | zero => intro a st; simp [genFrom]
  | succ r ih =>
      intro a st
      simp only [genFrom]
      cases hba : backend a with
      | text t =>
          by_cases ht : t.isEmpty
          · simp only [ht, if_true]
            by_cases hr : retryableError markers emptyMsg
            · simpa [hr] using Nat.succ_le_succ (ih (a + 1) (rotateStep st))
            · simp [hr]
          · simp [ht]
      | exn m =>
          by_cases hr : retryableError markers m
          · simpa [hr] using Nat.succ_le_succ (ih (a + 1) (rotateStep st))
          · simp [hr]

lemma genFrom_delays_get (markers : List (List Char)) (emptyMsg : List Char)
    (cfg : RetryCfg) (backend : Nat → BackendOutcome) (jitter : Nat → ℚ) :
    ∀ r a st n d, 1 ≤ a →
      (genFrom markers emptyMsg cfg backend jitter a r st).delays.get? n = some d →
      d = cfg.baseDelay * 2 ^ (a - 1 + n) + jitter (a + n) := by
  intro r
  induction r with
  | zero => intro a st n d _ hd; simp [genFrom] at hd
  | succ r ih =>
      intro a st n d ha hd
      have hstep : ∀ m : List Char, retryableError markers m = true →
          ((cfg.baseDelay * 2 ^ (a - 1) + jitter a) ::
            (genFrom markers emptyMsg cfg backend jitter (a + 1) r (rotateStep st)).delays).get? n
              = some d →
          d = cfg.baseDelay * 2 ^ (a - 1 + n) + jitter (a + n) := by
        intro m _ hcons
        cases n with
        | zero =>
            simp only [List.get?] at hcons
            have : cfg.baseDelay * 2 ^ (a - 1) + jitter a = d := by
              exact Option.some.inj hcons
            simpa using this.symm
        | succ n =>
            simp only [List.get?] at hcons
            have := ih (a + 1) (rotateStep st) n d (by omega) hcons
            have e1 : a + 1 - 1 + n = a - 1 + (n + 1) := by omega
            have e2 : a + 1 + n = a + (n + 1) := by omega
            rw [e1, e2] at this
            exact this
      simp only [genFrom] at hd
      cases hba : backend a <;> simp only [hba] at hd
      case text t =>
          by_cases ht : t.isEmpty
          · simp only [ht, if_true] at hd
            by_cases hr : retryableError markers emptyMsg
            · simp only [hr, if_true] at hd
              exact hstep emptyMsg hr hd
            · simp [hr] at hd
          · simp [ht] at hd
      case exn m =>
          by_cases hr : retryableError markers m
          · simp only [hr, if_true] at hd
            exact hstep m hr hd
          · simp [hr] at hd

lemma genFrom_logged_index (markers : List (List Char)) (emptyMsg : List Char)
    (cfg : RetryCfg) (backend : Nat → BackendOutcome) (jitter : Nat → ℚ) :
    ∀ r a st info, info ∈ (genFrom markers emptyMsg cfg backend jitter a r st).attempts →
      info.record.apiKeyIndex = (info.usedKeyIndex + 1) % st.apiKeys.length := by
  intro r
  induction r with
  | zero => intro a st info h; simp [genFrom] at h
  | succ r ih =>
      intro a st info h
      have htail : info ∈ (genFrom markers emptyMsg cfg backend jitter (a + 1) r
          (rotateStep st)).attempts →
          info.record.apiKeyIndex = (info.usedKeyIndex + 1) % st.apiKeys.length := by
        intro hm
        have := ih (a + 1) (rotateStep st) info hm
        simpa [rotateStep, get_next_key] using this
      simp only [genFrom] at h
      cases hba : backend a <;> simp only [hba] at h
      case text t =>
          by_cases ht : t.isEmpty
          · simp only [ht, if_true] at h
            by_cases hr : retryableError markers emptyMsg
            · simp only [hr, if_true] at h
              rcases List.mem_cons.mp h with h1 | h2
              · subst h1; rfl
              · exact htail h2
            · simp only [hr, Bool.false_eq_true, if_false, List.mem_singleton] at h
              subst h; rfl
          · simp only [ht, Bool.false_eq_true, if_false, List.mem_singleton] at h
            subst h; rfl
      case exn m =>
          by_cases hr : retryableError markers m
          · simp only [hr, if_true] at h
            rcases List.mem_cons.mp h with h1 | h2
            · subst h1; rfl
            · exact htail h2
          · simp only [hr, Bool.false_eq_true, if_false, List.mem_singleton] at h
            subst h; rfl

lemma genFrom_all_retry (markers : List (List Char)) (emptyMsg : List Char)
    (cfg : RetryCfg) (backend : Nat → BackendOutcome) (jitter : Nat → ℚ)
    (msg : List Char) (hmsg : retryableError markers msg = true)
    (hb : ∀ n, backend n = .exn msg) :
    ∀ r a st,
      (genFrom markers emptyMsg cfg backend jitter a r st).attempts.length = r ∧
      (genFrom markers emptyMsg cfg backend jitter a r st).delays.length = r ∧
      (genFrom markers emptyMsg cfg backend jitter a r st).result = .exhausted ∧
      (∀ info ∈ (genFrom markers emptyMsg cfg backend jitter a r st).attempts,
        info.record.status = .rateLimited) ∧
      (st.currentKeyIndex < st.apiKeys.length →
        (genFrom markers emptyMsg cfg backend jitter a r st).attempts.map (·.usedKeyIndex)
          = (List.range r).map (fun p => (st.currentKeyIndex + p) % st.apiKeys.length)) := by
  intro r
  induction r with
  | zero => intro a st; simp [genFrom]
  | succ r ih =>
      intro a st
      have hN : (rotateStep st).apiKeys = st.apiKeys := rfl
      obtain ⟨ih1, ih2, ih3, ih4, ih5⟩ := ih (a + 1) (rotateStep st)
      simp only [genFrom, hb a, hmsg, if_true]
      refine ⟨by simpa using ih1, by simpa using ih2, ih3, ?_, ?_⟩
      · intro info hinfo
        rcases List.mem_cons.mp hinfo with h1 | h2
        · subst h1; rfl
        · exact ih4 info h2
      · intro hlt
        have hpos : 0 < st.apiKeys.length := Nat.lt_of_le_of_lt (Nat.zero_le _) hlt
        have hlt' : (rotateStep st).currentKeyIndex < (rotateStep st).apiKeys.length := by
          simpa [rotateStep, get_next_key] using Nat.mod_lt _ hpos
        have htail := ih5 hlt'
        simp only [List.map_cons, htail, List.range_succ_eq_map, List.map_map]
        refine List.cons_eq_cons.mpr ⟨?_, ?_⟩
        · simp [Nat.mod_eq_of_lt hlt]
        · apply List.map_congr_left
          intro p _
          simp only [Function.comp, rotateStep, get_next_key]
          rw [Nat.mod_add_mod]
          congr 1
          omega

lemma genFrom_not_retry (markers : List (List Char)) (emptyMsg : List Char)
    (cfg : RetryCfg) (backend : Nat → BackendOutcome) (jitter : Nat → ℚ)
    (msg : List Char) (a r : Nat) (st : ProviderState)
    (hmsg : retryableError markers msg = false)
    (hb : backend a = .exn msg) :
    (genFrom markers emptyMsg cfg backend jitter a (r + 1) st).result = .terminal msg ∧
    (genFrom markers emptyMsg cfg backend jitter a (r + 1) st).attempts.length = 1 := by
  simp [genFrom, hb, hmsg]

/-! ### Claim theorems: rotation and retry policy -/

/-- C2: for every logical `generate` invocation (either provider variant),
the number of underlying backend attempts is at most `max_retries`, and the
delay slept between attempt `n+1` and attempt `n+2` (the entry at 0-based
position `n` of the sleep sequence) equals `base_delay * 2^n` plus a jitter
term, hence lies within `[base_delay * 2^n, base_delay * 2^n + jitter_max]`,
assuming the jitter source respects `uniform(0, jitter_max)` bounds. -/
theorem C2_retry_bound_and_backoff (cfg : RetryCfg) (backend : Nat → BackendOutcome)
    (jitter : Nat → ℚ) (st : ProviderState)
    (hj : ∀ n, 0 ≤ jitter n ∧ jitter n ≤ cfg.jitterMax) :
    ((geminiGenerate cfg backend jitter st).attempts.length ≤ cfg.maxRetries ∧
      ∀ n d, (geminiGenerate cfg backend jitter st).delays.get? n = some d →
        cfg.baseDelay * 2 ^ n ≤ d ∧ d ≤ cfg.baseDelay * 2 ^ n + cfg.jitterMax) ∧
    ((openaiGenerate cfg backend jitter st).attempts.length ≤ cfg.maxRetries ∧
      ∀ n d, (openaiGenerate cfg backend jitter st).delays.get? n = some d →
        cfg.baseDelay * 2 ^ n ≤ d ∧ d ≤ cfg.baseDelay * 2 ^ n + cfg.jitterMax) := by
  constructor <;> refine ⟨genFrom_attempts_le _ _ _ _ _ _ _ _, ?_⟩ <;>
    · intro n d hd
      have := genFrom_delays_get _ _ cfg backend jitter cfg.maxRetries 1 st n d
        (le_refl 1) hd
      simp only [Nat.sub_self, Nat.zero_add] at this
      have hjn := hj (1 + n)
      constructor <;> [linarith [hjn.1]; linarith [hjn.2]]

/-- C2 witness: the bounds at a concrete run (two keys, an always-rate-limited
backend, zero jitter). -/
theorem C2_retry_bound_and_backoff_witness :
    ((geminiGenerate defaultCfg (fun _ => .exn "rate limit".data) (fun _ => 0)
        (providerInit ["a", "b"])).attempts.length ≤ defaultCfg.maxRetries ∧
      ∀ n d, (geminiGenerate defaultCfg (fun _ => .exn "rate limit".data) (fun _ => 0)
          (providerInit ["a", "b"])).delays.get? n = some d →
        defaultCfg.baseDelay * 2 ^ n ≤ d ∧
          d ≤ defaultCfg.baseDelay * 2 ^ n + defaultCfg.jitterMax) ∧
    ((openaiGenerate defaultCfg (fun _ => .exn "rate limit".data) (fun _ => 0)
        (providerInit ["a", "b"])).attempts.length ≤ defaultCfg.maxRetries ∧
      ∀ n d, (openaiGenerate defaultCfg (fun _ => .exn "rate limit".data) (fun _ => 0)
          (providerInit ["a", "b"])).delays.get? n = some d →
        defaultCfg.baseDelay * 2 ^ n ≤ d ∧
          d ≤ defaultCfg.baseDelay * 2 ^ n + defaultCfg.jitterMax) :=
  C2_retry_bound_and_backoff defaultCfg _ _ _
    (fun _ => ⟨le_refl 0, by norm_num [defaultCfg]⟩)

/-- C4: for a provider constructed with key list `keys`, the key returned by
the `k`-th call to `get_next_key` (1-based, counted from construction) is
`keys[(k-1) mod N]` — the rotation is cyclic round-robin over the single
per-instance counter. -/
theorem C4_round_robin_rotation (keys : List String) (hkeys : keys ≠ [])
    (k : Nat) (hk : 1 ≤ k) :
    (get_next_key (rotateStep^[k - 1] (providerInit keys))).1
      = keys.getD ((k - 1) % keys.length) "" := by
  rw [rotate_iterate]
  rfl

/-- C4 witness: the 5th call on a 3-key provider returns `keys[(5-1) mod 3]`. -/
theorem C4_round_robin_rotation_witness :
    (get_next_key (rotateStep^[5 - 1] (providerInit ["a", "b", "c"]))).1
      = ["a", "b", "c"].getD ((5 - 1) % ["a", "b", "c"].length) "" :=
  C4_round_robin_rotation ["a", "b", "c"] (by simp) 5 (by omega)

/-- C3 counterexample: a quota-exhaustion failure on the OpenAI variant
("You exceeded your current quota.", containing none of its markers
`rate, limit, 429, 500, 503`) and a 5xx-class failure ("502 Bad Gateway")
on either variant are classified non-retryable; the OpenAI provider makes a
single attempt and fails terminally instead of retrying. -/
theorem C3_transient_counterexample :
    retryableError openaiMarkers "You exceeded your current quota.".data = false ∧
    retryableError geminiMarkers "502 Bad Gateway".data = false ∧
    retryableError openaiMarkers "502 Bad Gateway".data = false ∧
    (openaiGenerate defaultCfg (fun _ => .exn "You exceeded your current quota.".data)
        (fun _ => 0) (providerInit ["k0", "k1"])).result
      = .terminal "You exceeded your current quota.".data ∧
    (openaiGenerate defaultCfg (fun _ => .exn "You exceeded your current quota.".data)
        (fun _ => 0) (providerInit ["k0", "k1"])).attempts.length = 1 := by
  refine ⟨by decide, by decide, by decide, ?_, ?_⟩ <;> rfl

/-- C3 amended: retryability is decided by the exact per-variant marker sets
(`rate, quota, 429, 500, 503` for Gemini; `rate, limit, 429, 500, 503` for
OpenAI) as case-insensitive substrings of the failure message.  A failure
whose message contains a marker is retried up to the bound with credential
rotation and a backoff sleep before each retry; a failure without a marker
(even a transient one such as a 502, or quota exhaustion on OpenAI) is
terminal after a single attempt. -/
theorem C3_marker_classification (cfg : RetryCfg) (jitter : Nat → ℚ)
    (keys : List String) (hkeys : keys ≠ []) (msg : List Char)
    (backend : Nat → BackendOutcome) (hb : ∀ n, backend n = .exn msg) :
    ((retryableError geminiMarkers msg = true →
        (geminiGenerate cfg backend jitter (providerInit keys)).attempts.length
            = cfg.maxRetries ∧
        (geminiGenerate cfg backend jitter (providerInit keys)).delays.length
            = cfg.maxRetries ∧
        (geminiGenerate cfg backend jitter (providerInit keys)).result = .exhausted ∧
        (∀ info ∈ (geminiGenerate cfg backend jitter (providerInit keys)).attempts,
          info.record.status = .rateLimited) ∧
        (geminiGenerate cfg backend jitter (providerInit keys)).attempts.map (·.usedKeyIndex)
            = (List.range cfg.maxRetries).map (fun p => p % keys.length)) ∧
      (retryableError geminiMarkers msg = false → 1 ≤ cfg.maxRetries →
        (geminiGenerate cfg backend jitter (providerInit keys)).result = .terminal msg ∧
        (geminiGenerate cfg backend jitter (providerInit keys)).attempts.length = 1)) ∧
    ((retryableError openaiMarkers msg = true →
        (openaiGenerate cfg backend jitter (providerInit keys)).attempts.length
            = cfg.maxRetries ∧
        (openaiGenerate cfg backend jitter (providerInit keys)).delays.length
            = cfg.maxRetries ∧
        (openaiGenerate cfg backend jitter (providerInit keys)).result = .exhausted ∧
        (∀ info ∈ (openaiGenerate cfg backend jitter (providerInit keys)).attempts,
          info.record.status = .rateLimited) ∧
        (openaiGenerate cfg backend jitter (providerInit keys)).attempts.map (·.usedKeyIndex)
            = (List.range cfg.maxRetries).map (fun p => p % keys.length)) ∧
      (retryableError openaiMarkers msg = false → 1 ≤ cfg.maxRetries →
        (openaiGenerate cfg backend jitter (providerInit keys)).result = .terminal msg ∧
        (openaiGenerate cfg backend jitter (providerInit keys)).attempts.length = 1)) := by
  have hlt : (providerInit keys).currentKeyIndex < (providerInit keys).apiKeys.length := by
    simpa [providerInit] using List.length_pos.mpr hkeys
  constructor <;> constructor
  · intro hr
    obtain ⟨h1, h2, h3, h4, h5⟩ :=
      genFrom_all_retry geminiMarkers geminiEmptyMsg cfg backend jitter msg hr hb
        cfg.maxRetries 1 (providerInit keys)
    exact ⟨h1, h2, h3, h4, by simpa [providerInit] using h5 hlt⟩
  · intro hr hmr
    obtain ⟨r, hrr⟩ := Nat.exists_eq_add_of_le hmr
    have := genFrom_not_retry geminiMarkers geminiEmptyMsg cfg backend jitter msg 1 r
      (providerInit keys) hr (hb 1)
    unfold geminiGenerate
    rw [hrr, Nat.add_comm 1 r]
    exact this
  · intro hr
    obtain ⟨h1, h2, h3, h4, h5⟩ :=
      genFrom_all_retry openaiMarkers openaiEmptyMsg cfg backend jitter msg hr hb
        cfg.maxRetries 1 (providerInit keys)
    exact ⟨h1, h2, h3, h4, by simpa [providerInit] using h5 hlt⟩
  · intro hr hmr
    obtain ⟨r, hrr⟩ := Nat.exists_eq_add_of_le hmr
    have := genFrom_not_retry openaiMarkers openaiEmptyMsg cfg backend jitter msg 1 r
      (providerInit keys) hr (hb 1)
    unfold openaiGenerate
    rw [hrr, Nat.add_comm 1 r]
    exact this

/-- C3 witness: a 429 failure (marker-classified retryable on both variants)
is retried the full bound on a concrete 3-key provider. -/
theorem C3_marker_classification_witness :
    (geminiGenerate defaultCfg (fun _ => .exn "429 Too Many Requests".data) (fun _ => 0)
        (providerInit ["k0", "k1", "k2"])).attempts.length = defaultCfg.maxRetries ∧
    (geminiGenerate defaultCfg (fun _ => .exn "429 Too Many Requests".data) (fun _ => 0)
        (providerInit ["k0", "k1", "k2"])).delays.length = defaultCfg.maxRetries ∧
    (geminiGenerate defaultCfg (fun _ => .exn "429 Too Many Requests".data) (fun _ => 0)
        (providerInit ["k0", "k1", "k2"])).result = .exhausted ∧
    (∀ info ∈ (geminiGenerate defaultCfg (fun _ => .exn "429 Too Many Requests".data)
        (fun _ => 0) (providerInit ["k0", "k1", "k2"])).attempts,
      info.record.status = .rateLimited) ∧
    (geminiGenerate defaultCfg (fun _ => .exn "429 Too Many Requests".data) (fun _ => 0)
        (providerInit ["k0", "k1", "k2"])).attempts.map (·.usedKeyIndex)
      = (List.range defaultCfg.maxRetries).map (fun p => p % ["k0", "k1", "k2"].length) :=
  (C3_marker_classification defaultCfg (fun _ => 0) ["k0", "k1", "k2"] (by simp)
      "429 Too Many Requests".data (fun _ => .exn "429 Too Many Requests".data)
      (fun _ => rfl)).1.1 (by decide)

/-- C9 counterexample: on a 2-key Gemini provider whose first attempt
succeeds, the key actually used has index 0 but the emitted telemetry record
carries `api_key_index = 1` (the counter value after rotation). -/
theorem C9_counterexample :
    (geminiGenerate defaultCfg (fun _ => .text "x".data) (fun _ => 0)
        (providerInit ["k0", "k1"])).attempts.map
          (fun i => (i.usedKeyIndex, i.record.apiKeyIndex)) = [(0, 1)] ∧
    (1 : Nat) ≠ 0 := by
  exact ⟨rfl, by decide⟩

/-- C9 amended: every Generation Attempt Record emitted by either provider
variant carries `api_key_index = (i + 1) mod N`, where `i` is the index of
the credential actually used for that attempt and `N` the key-list length —
the counter value after rotation, not the index used. -/
theorem C9_logged_index_is_rotated (cfg : RetryCfg) (backend : Nat → BackendOutcome)
    (jitter : Nat → ℚ) (st : ProviderState) :
    (∀ info ∈ (geminiGenerate cfg backend jitter st).attempts,
        info.record.apiKeyIndex = (info.usedKeyIndex + 1) % st.apiKeys.length) ∧
    (∀ info ∈ (openaiGenerate cfg backend jitter st).attempts,
        info.record.apiKeyIndex = (info.usedKeyIndex + 1) % st.apiKeys.length) :=
  ⟨fun info h => genFrom_logged_index _ _ cfg backend jitter cfg.maxRetries 1 st info h,
   fun info h => genFrom_logged_index _ _ cfg backend jitter cfg.maxRetries 1 st info h⟩

/-- C9 amended witness: at the concrete run of `C9_counterexample`, the single
attempt's record indeed satisfies `api_key_index = (0 + 1) mod 2`. -/
theorem C9_logged_index_is_rotated_witness :
    ({ usedKeyIndex := 0, outcome := .text "x".data,
       record := { status := .success, apiKeyIndex := 1 } } : AttemptInfo).record.apiKeyIndex
      = (({ usedKeyIndex := 0, outcome := .text "x".data,
            record := { status := .success, apiKeyIndex := 1 } } : AttemptInfo).usedKeyIndex + 1)
          % (providerInit ["k0", "k1"]).apiKeys.length :=
  (C9_logged_index_is_rotated defaultCfg (fun _ => .text "x".data) (fun _ => 0)
      (providerInit ["k0", "k1"])).1
    { usedKeyIndex := 0, outcome := .text "x".data,
      record := { status := .success, apiKeyIndex := 1 } }
    (by simp [geminiGenerate, genFrom, defaultCfg, rotateStep, get_next_key, providerInit])

/-! ### Claim theorems: registry -/

/-- C10: registry startup aborts exactly when no provider loads; when the
configured default name matches no loaded provider, initialization still
succeeds, the default silently falls back to the first loaded provider, and
resolving without a name returns that first provider. -/
theorem C10_default_fallback (g o d : List Char) :
    (load_providers g o d = none ↔ parseKeys g = [] ∧ parseKeys o = []) ∧
    (∀ r, load_providers g o d = some r →
      (∀ p ∈ r.providers, p.1 ≠ toLowerL d) →
      r.defaultProvider = (r.providers.headD ("".data, [])).1 ∧
      get_provider r none = r.providers.head?) := by
  constructor
  · by_cases hg : (parseKeys g).isEmpty <;> by_cases ho : (parseKeys o).isEmpty <;>
      simp_all [load_providers, List.isEmpty_iff]
  · intro r hr hmiss
    by_cases hg : (parseKeys g).isEmpty
    · by_cases ho : (parseKeys o).isEmpty
      · simp [load_providers, hg, ho] at hr
      · simp [load_providers, hg, ho] at hr
        subst hr
        have hne := hmiss ("openai".data, parseKeys o) (by simp)
        simp only [ne_eq] at hne
        simp [get_provider, hne]
    · by_cases ho : (parseKeys o).isEmpty
      · simp [load_providers, hg, ho] at hr
        subst hr
        have hne := hmiss ("gemini".data, parseKeys g) (by simp)
        simp only [ne_eq] at hne
        simp [get_provider, hne]
      · simp [load_providers, hg, ho] at hr
        subst hr
        have hne1 := hmiss ("gemini".data, parseKeys g) (by simp)
        have hne2 := hmiss ("openai".data, parseKeys o) (by simp)
        simp only [ne_eq] at hne1 hne2
        simp [get_provider, hne1, hne2]

/-- C10 witness: with only OpenAI keys configured and default name
"gemini" (matching no loaded provider), loading succeeds with "openai" as
default and `get_provider none` returns it. -/
theorem C10_default_fallback_witness :
    (⟨[("openai".data, ["k1".data])], "openai".data⟩ : Registry).defaultProvider
      = ((⟨[("openai".data, ["k1".data])], "openai".data⟩ : Registry).providers.headD
          ("".data, [])).1 ∧
    get_provider (⟨[("openai".data, ["k1".data])], "openai".data⟩ : Registry) none
      = (⟨[("openai".data, ["k1".data])], "openai".data⟩ : Registry).providers.head? :=
  (C10_default_fallback "".data "k1".data "gemini".data).2
    (⟨[("openai".data, ["k1".data])], "openai".data⟩ : Registry)
    (by decide)
    (by intro p hp
        simp only [List.mem_singleton] at hp
        subst hp
        decide)

/-- C6 counterexample: with two owned providers whose first `close()`
raises, `close_all` performs only one `close()` call — the second provider
is never closed, and the exception propagates. -/
theorem C6_counterexample :
    close_all [some "boom".data, none] = (1, some "boom".data) ∧
    ([some "boom".data, none] : List (Option (List Char))).length = 2 ∧
    (1 : Nat) ≠ 2 := by
  refine ⟨rfl, rfl, by decide⟩

/-- C6 amended: `close_all` closes the providers in order; when every
`close()` returns normally it closes all of them, but the first failing
`close()` aborts the loop — exactly the providers up to and including the
failing one are closed and the exception propagates.  (In this repository
both providers' `close` are no-ops that cannot fail, so in practice all
providers are closed.) -/
theorem C6_close_all_stops_at_failure :
    (∀ l : List (Option (List Char)), (∀ x ∈ l, x = none) →
      close_all l = (l.length, none)) ∧
    (∀ (pre post : List (Option (List Char))) (e : List Char),
      (∀ x ∈ pre, x = none) →
      close_all (pre ++ some e :: post) = (pre.length + 1, some e)) := by
  constructor
  · intro l hl
    induction l with
    | nil => rfl
    | cons x rest ih =>
        have hx : x = none := hl x (List.mem_cons_self x rest)
        subst hx
        have := ih (fun y hy => hl y (List.mem_cons_of_mem _ hy))
        simp [close_all, this]
  · intro pre post e hpre
    induction pre with
    | nil => rfl
    | cons x rest ih =>
        have hx : x = none := hpre x (List.mem_cons_self x rest)
        subst hx
        have := ih (fun y hy => hpre y (List.mem_cons_of_mem _ hy))
        simp [close_all, this]

/-- C6 amended witness: all-healthy closes close both providers; a failure
in the middle closes exactly the first two of three. -/
theorem C6_close_all_stops_at_failure_witness :
    close_all [none, none] = (([none, none] : List (Option (List Char))).length, none) ∧
    close_all ([none] ++ some "x".data :: [none]) =
      (([none] : List (Option (List Char))).length + 1, some "x".data) :=
  ⟨C6_close_all_stops_at_failure.1 [none, none] (by simp),
   C6_close_all_stops_at_failure.2 [none] [none] "x".data (by simp)⟩

/-! ### Claim theorems: batch pipeline -/

/-- C1 counterexample: a Work Item whose `generate` call ends in a terminal
backend exception leaves zero artifacts on disk — the claim's "exactly one
artifact, never neither" fails on the exception path, which `process_file`
handles by returning an error Job Result without writing anything. -/
theorem C1_counterexample :
    process_file (.ok "transcript text".data)
        (.terminal "Gemini API Error: invalid request".data) = ([], .error) ∧
    process_file (.ok "transcript text".data) .exhausted = ([], .error) ∧
    process_file (.error "read failed".data)
        (.success "\x7b\x7d".data) = ([], .error) ∧
    (0 : Nat) ≠ 1 := by
  refine ⟨rfl, rfl, rfl, by decide⟩

/-- C1 amended: `process_file` never writes more than one artifact; when the
file is read and the logical `generate` call returns text, exactly one
artifact is written (the success JSON, or the raw-text error artifact on
extraction failure); on any other exception (terminal backend failure,
retries exhausted, read error) it writes no artifact and records an error
Job Result. -/
theorem C1_artifact_discipline (readRes : Except (List Char) (List Char))
    (genRes : GenResult) :
    (process_file readRes genRes).1.length ≤ 1 ∧
    (∀ raw t, readRes = .ok raw → genRes = .success t →
      (∃ v, process_file readRes genRes = ([.outputJson v], .success)) ∨
      process_file readRes genRes = ([.errorText t], .error)) ∧
    ((∀ t, genRes ≠ .success t) → process_file readRes genRes = ([], .error)) ∧
    (∀ e, readRes = .error e → process_file readRes genRes = ([], .error)) := by
  refine ⟨?_, ?_, ?_, ?_⟩
  · cases readRes with
    | error e => simp [process_file]
    | ok raw =>
        cases genRes with
        | terminal m => simp [process_file]
        | exhausted => simp [process_file]
        | success t =>
            simp only [process_file]
            cases hp : parse_json_safely t with
            | some v =>
                by_cases hv : pyTruthy v
                · simp [hv]
                · cases hl : json_loads t <;> simp [hv, hl]
            | none => cases hl : json_loads t <;> simp [hl]
  · intro raw t hr hg
    subst hr; subst hg
    simp only [process_file]
    cases hp : parse_json_safely t with
    | some v =>
        by_cases hv : pyTruthy v
        · exact Or.inl ⟨v, by simp [hv]⟩
        · cases hl : json_loads t with
          | some w => exact Or.inl ⟨w, by simp [hv, hl]⟩
          | none => exact Or.inr (by simp [hv, hl])
    | none =>
        cases hl : json_loads t with
        | some w => exact Or.inl ⟨w, by simp [hl]⟩
        | none => exact Or.inr (by simp [hl])
  · intro hng
    cases readRes with
    | error e => simp [process_file]
    | ok raw =>
        cases genRes with
        | terminal m => simp [process_file]
        | exhausted => simp [process_file]
        | success t => exact absurd rfl (hng t)
  · intro e hr
    subst hr
    simp [process_file]

/-- C1 amended witness: concrete instances — a successful parse writes one
output artifact; a terminal generate failure writes nothing. -/
theorem C1_artifact_discipline_witness :
    ((∃ v, process_file (.ok "x".data) (.success "\x7b\"a\": 1\x7d".data)
        = ([.outputJson v], .success)) ∨
      process_file (.ok "x".data) (.success "\x7b\"a\": 1\x7d".data)
        = ([.errorText "\x7b\"a\": 1\x7d".data], .error)) ∧
    process_file (.ok "x".data) (.terminal "boom".data) = ([], .error) :=
  ⟨(C1_artifact_discipline (.ok "x".data) (.success "\x7b\"a\": 1\x7d".data)).2.1
      "x".data "\x7b\"a\": 1\x7d".data rfl rfl,
   (C1_artifact_discipline (.ok "x".data) (.terminal "boom".data)).2.2.1
      (fun t h => by cases h)⟩

/-- C5 counterexample: a run in which the only eligible file already has an
output takes the all-skipped early return — it writes nothing, but it yields
no Job Summary at all (the function returns before computing one), rather
than a summary reporting zero processed. -/
theorem C5_counterexample :
    (run_workflow true ["a.f.txt".data] (fun _ => true)
        (fun _ => ([], .error))).1 = .allSkipped 1 ∧
    ((run_workflow true ["a.f.txt".data] (fun _ => true)
        (fun _ => ([], .error))).1).producesSummary = false ∧
    (run_workflow true ["a.f.txt".data] (fun _ => true)
        (fun _ => ([], .error))).2 = [] := by
  refine ⟨rfl, rfl, rfl⟩

/-- C5 amended: when every eligible input file already has an output, the
run writes zero artifacts, never invokes the per-file processing (the result
is the same for every processing function, so no Provider is invoked), and
returns early through the distinct all-skipped branch — reporting the
skipped count but computing no Job Summary; the no-eligible-files case takes
the separate "none found" branch. -/
theorem C5_all_skipped_no_summary (entries : List (List Char))
    (hasOutput : List Char → Bool)
    (p1 p2 : List Char → List Artifact × JobStatus) :
    (entries.filter (fun f => ".f.txt".data.isSuffixOf f) ≠ [] →
      (∀ f ∈ entries.filter (fun f => ".f.txt".data.isSuffixOf f), hasOutput f = true) →
      run_workflow true entries hasOutput p1 =
        (.allSkipped (entries.filter (fun f => ".f.txt".data.isSuffixOf f)).length, []) ∧
      run_workflow true entries hasOutput p1 = run_workflow true entries hasOutput p2) ∧
    (entries.filter (fun f => ".f.txt".data.isSuffixOf f) = [] →
      run_workflow true entries hasOutput p1 = (.noneFound, [])) := by
  constructor
  · intro hne hall
    have hfiles : (entries.filter (fun f => ".f.txt".data.isSuffixOf f)).filter
        (fun f => !hasOutput f) = [] := by
      rw [List.filter_eq_nil_iff]
      intro f hf
      simp [hall f hf]
    have hskip : (entries.filter (fun f => ".f.txt".data.isSuffixOf f)).filter
        (fun f => hasOutput f) = entries.filter (fun f => ".f.txt".data.isSuffixOf f) := by
      rw [List.filter_eq_self]
      exact hall
    constructor <;>
      simp [run_workflow, hfiles, hskip, List.isEmpty_iff, hne]
  · intro hel
    simp [run_workflow, hel]

/-- C5 amended witness: one eligible file, output already present. -/
theorem C5_all_skipped_no_summary_witness :
    run_workflow true ["b.f.txt".data] (fun _ => true) (fun _ => ([], .error)) =
      (.allSkipped ((["b.f.txt".data] : List (List Char)).filter
          (fun f => ".f.txt".data.isSuffixOf f)).length, []) ∧
    run_workflow true ["b.f.txt".data] (fun _ => true) (fun _ => ([], .error)) =
      run_workflow true ["b.f.txt".data] (fun _ => true)
        (fun _ => ([.errorText "other".data], .success)) :=
  (C5_all_skipped_no_summary ["b.f.txt".data] (fun _ => true)
      (fun _ => ([], .error)) (fun _ => ([.errorText "other".data], .success))).1
    (by decide) (fun f _ => rfl)

/-! ### Claim theorems: JSON salvage heuristics -/

/-- C7 counterexample: on `x{"a":1}y}` the first two heuristics fail and the
first brace-delimited object `{"a":1}` is valid JSON, yet extraction returns
`None`: the regex `\{.*\}` is greedy, matching from the first `{` to the
*last* `}` (`{"a":1}y}`), which does not parse. -/
theorem C7_counterexample :
    json_loads "x\x7b\"a\":1\x7dy\x7d".data = none ∧
    json_loads (pyStrip (replaceAll "```".data []
        (replaceAll "```json".data [] "x\x7b\"a\":1\x7dy\x7d".data))) = none ∧
    specFirstBraceObject "x\x7b\"a\":1\x7dy\x7d".data = some "\x7b\"a\":1\x7d".data ∧
    json_loads "\x7b\"a\":1\x7d".data = some (.obj [("a".data, .num "1".data)]) ∧
    regexSearchBraces "x\x7b\"a\":1\x7dy\x7d".data = some "\x7b\"a\":1\x7dy\x7d".data ∧
    parse_json_safely "x\x7b\"a\":1\x7dy\x7d".data = none :=
  ⟨rfl, rfl, rfl, rfl, rfl, rfl⟩

/-- C7 amended: extraction tries exactly three heuristics in fixed order —
direct parse; else strip markdown fences and parse; else extract the greedy
regex span (first `{` to the last `}` of the whole text) and parse that —
returning the first success and `None` if the third parse fails.  It is the
greedy span, not the first brace-delimited object, that the third heuristic
parses. -/
theorem C7_heuristic_order (t : List Char) (v : JsonValue) :
    (json_loads t = some v → parse_json_safely t = some v) ∧
    (json_loads t = none →
      json_loads (pyStrip (replaceAll "```".data []
        (replaceAll "```json".data [] t))) = some v →
      parse_json_safely t = some v) ∧
    (json_loads t = none →
      json_loads (pyStrip (replaceAll "```".data []
        (replaceAll "```json".data [] t))) = none →
      parse_json_safely t = (regexSearchBraces t).bind json_loads) := by
  refine ⟨?_, ?_, ?_⟩
  · intro h1
    simp [parse_json_safely, h1]
  · intro h1 h2
    simp [parse_json_safely, h1, h2]
  · intro h1 h2
    simp only [parse_json_safely, h1, h2]
    cases hr : regexSearchBraces t with
    | none => rfl
    | some span => cases hl : json_loads span <;> simp [hl]

/-- C7 amended witness: the third heuristic at the counterexample input. -/
theorem C7_heuristic_order_witness :
    parse_json_safely "x\x7b\"a\":1\x7dy\x7d".data
      = (regexSearchBraces "x\x7b\"a\":1\x7dy\x7d".data).bind json_loads :=
  (C7_heuristic_order "x\x7b\"a\":1\x7dy\x7d".data .null).2.2 rfl rfl

/-! ### Lemmas about substring search, replacement and fence stripping -/

lemma containsSub_infix_iff (pat : List Char) : ∀ s, containsSub pat s = true ↔ pat <:+: s := by
  intro s
  induction s with
  | nil => simp [containsSub, List.isEmpty_iff]
  | cons c t ih =>
      rw [containsSub]
      simp [List.infix_cons_iff, ih, List.isPrefixOf_iff_prefix]

lemma containsSub_prefix_of_append (pat' pat u b : List Char)
    (hpp : pat' <+: pat) (hlen : b.length + pat'.length ≤ pat.length)
    (h : containsSub pat (u ++ b) = true) : containsSub pat' u = true := by
  rw [containsSub_infix_iff] at h ⊢
  obtain ⟨s, t, hst⟩ := h
  have hpre : (s ++ pat') <+: (u ++ b) := by
    obtain ⟨w, hw⟩ := hpp
    refine ⟨w ++ t, ?_⟩
    rw [← hst, ← hw]
    simp [List.append_assoc]
  have hlen2 : (s ++ pat').length ≤ u.length := by
    have hl := congrArg List.length hst
    simp only [List.length_append] at hl
    simp only [List.length_append]
    omega
  have h2 : (s ++ pat') <+: u :=
    List.prefix_of_prefix_length_le hpre (List.prefix_append u b) hlen2
  obtain ⟨w, hw⟩ := h2
  exact ⟨s, w, by simpa [List.append_assoc] using hw⟩

lemma replaceAllF_congr (pat rep : List Char) :
    ∀ f1 f2 s, s.length ≤ f1 → s.length ≤ f2 →
      replaceAllF pat rep f1 s = replaceAllF pat rep f2 s := by
  intro f1
  induction f1 with
  | zero =>
      intro f2 s h1 _
      have : s = [] := List.eq_nil_of_length_eq_zero (Nat.le_zero.mp h1)
      subst this
      cases f2 <;> rfl
  | succ f1 ih =>
      intro f2 s h1 h2
      cases s with
      | nil => cases f2 <;> rfl
      | cons c rest =>
          cases f2 with
          | zero => simp at h2
          | succ f2 =>
              simp only [replaceAllF]
              by_cases hp : pat ≠ [] ∧ pat.isPrefixOf (c :: rest)
              · rw [if_pos hp, if_pos hp]
                congr 1
                apply ih
                · have : pat.length ≥ 1 := by
                    cases pat with
                    | nil => exact absurd rfl hp.1
                    | cons p ps => simp
                  simp only [List.length_drop, List.length_cons] at *
                  omega
                · have : pat.length ≥ 1 := by
                    cases pat with
                    | nil => exact absurd rfl hp.1
                    | cons p ps => simp
                  simp only [List.length_drop, List.length_cons] at *
                  omega
              · rw [if_neg hp, if_neg hp]
                congr 1
                apply ih <;> simp_all <;> omega

lemma replaceAll_append_pat (pat rep t : List Char) (hpat : pat ≠ []) :
    replaceAll pat rep (pat ++ t) = rep ++ replaceAll pat rep t := by
  cases pat with
  | nil => exact absurd rfl hpat
  | cons p ps =>
      show replaceAllF (p :: ps) rep ((ps ++ t).length + 1) (p :: (ps ++ t)) = _
      simp only [replaceAllF]
      rw [if_pos ⟨hpat, List.isPrefixOf_iff_prefix.mpr (List.prefix_append _ _)⟩]
      congr 1
      rw [show p :: (ps ++ t) = (p :: ps) ++ t from rfl, List.drop_left]
      exact replaceAllF_congr (p :: ps) rep _ _ t (by simp) (le_refl _)

lemma replaceAllF_of_not_contains (pat rep : List Char) :
    ∀ f s, containsSub pat s = false → replaceAllF pat rep f s = s := by
  intro f
  induction f with
  | zero => intro s _; rfl
  | succ f ih =>
      intro s h
      cases s with
      | nil => rfl
      | cons c rest =>
          rw [containsSub] at h
          simp only [Bool.or_eq_false_iff] at h
          rw [replaceAllF, if_neg, ih rest h.2]
          intro hc
          rw [h.1] at hc
          exact absurd hc.2 (by simp)

lemma replaceAll_of_not_contains (pat rep s : List Char)
    (h : containsSub pat s = false) : replaceAll pat rep s = s :=
  replaceAllF_of_not_contains pat rep s.length s h

lemma replace_ticks_append : ∀ u : List Char, containsSub "```".data u = false →
    replaceAll "```".data [] (u ++ "```".data) = u := by
  intro u
  induction u with
  | nil => intro _; rfl
  | cons c u ih =>
      intro h
      rw [containsSub] at h
      simp only [Bool.or_eq_false_iff] at h
      by_cases hc : "```".data.isPrefixOf (c :: u ++ "```".data) = true
      · rcases u with _ | ⟨u0, _ | ⟨u1, urest⟩⟩
        · have hc' : '`' = c := by
            simpa [List.isPrefixOf] using hc
          subst hc'
          rfl
        · have hc' : '`' = c ∧ '`' = u0 := by
            simpa [List.isPrefixOf] using hc
          obtain ⟨h1, h2⟩ := hc'
          subst h1; subst h2
          rfl
        · have hc' : '`' = c ∧ '`' = u0 ∧ '`' = u1 := by
            simpa [List.isPrefixOf] using hc
          obtain ⟨h1, h2, h3⟩ := hc'
          subst h1; subst h2; subst h3
          simp [List.isPrefixOf] at h
      · show replaceAllF "```".data [] ((c :: (u ++ "```".data)).length)
            (c :: (u ++ "```".data)) = c :: u
        rw [show (c :: (u ++ "```".data)).length = (u ++ "```".data).length + 1 from by simp]
        rw [replaceAllF, if_neg]
        · rw [show replaceAllF "```".data [] (u ++ "```".data).length (u ++ "```".data)
              = replaceAll "```".data [] (u ++ "```".data) from rfl]
          rw [ih h.2]
        · intro hcon
          exact hc hcon.2

lemma no_ticksjson_in_tail (s : List Char) (h : containsSub "```".data s = false) :
    containsSub "```json".data (s ++ "```".data) = false := by
  by_contra hcon
  rw [Bool.not_eq_false] at hcon
  have := containsSub_prefix_of_append "```".data "```json".data s "```".data
    (by decide) (by decide) hcon
  rw [h] at this
  exact absurd this (by simp)

lemma heuristic2_clean (s : List Char) (h : containsSub "```".data s = false) :
    pyStrip (replaceAll "```".data [] (replaceAll "```json".data [] (wrapFences s)))
      = pyStrip s := by
  have h1 : replaceAll "```json".data [] (wrapFences s) = s ++ "```".data := by
    rw [show wrapFences s = "```json".data ++ (s ++ "```".data) from by
      simp [wrapFences, List.append_assoc]]
    rw [replaceAll_append_pat _ _ _ (by decide)]
    rw [replaceAll_of_not_contains _ _ _ (no_ticksjson_in_tail s h)]
    rfl
  rw [h1, replace_ticks_append s h]

lemma parseValue_backtick (f : Nat) (X : List Char) : parseValue f ('`' :: X) = none := by
  cases f with
  | zero => rfl
  | succ f =>
      rw [parseValue]
      simp [List.isPrefixOf]

lemma skipWs_backtick (X : List Char) : skipWs ('`' :: X) = '`' :: X := by
  simp [skipWs, List.dropWhile_cons, isJsonWs]

lemma json_loads_backtick (X : List Char) : json_loads ('`' :: X) = none := by
  simp [json_loads, skipWs_backtick, parseValue_backtick]

end Agents


namespace Agents

lemma isJsonWs_cases (c : Char) (h : isJsonWs c = true) :
    c = ' ' ∨ c = '\t' ∨ c = '\n' ∨ c = '\r' := by
  simp only [isJsonWs, Bool.or_eq_true, decide_eq_true_eq] at h
  tauto

lemma isPyWs_of_isJsonWs (c : Char) (h : isJsonWs c = true) : isPyWs c = true := by
  rcases isJsonWs_cases c h with h | h | h | h <;> subst h <;> rfl

lemma not_isDigit_of_ws (c : Char) (h : isJsonWs c = true) : c.isDigit = false := by
  rcases isJsonWs_cases c h with h | h | h | h <;> subst h <;> rfl

lemma hexDigit?_ws (c : Char) (h : isJsonWs c = true) : hexDigit? c = none := by
  rcases isJsonWs_cases c h with h | h | h | h <;> subst h <;> rfl

lemma escapeChar_ws (c : Char) (h : isJsonWs c = true) : escapeChar c = none := by
  rcases isJsonWs_cases c h with h | h | h | h <;> subst h <;> rfl

lemma ws_ne (c : Char) (h : isJsonWs c = true) (d : Char) (hd : isJsonWs d = false) :
    c ≠ d := by
  intro heq
  subst heq
  rw [h] at hd
  cases hd

/-- Digit scans do not cross an all-whitespace tail. -/
lemma digits_split (w : List Char) (hw : w.all isJsonWs = true) :
    ∀ t : List Char,
      (t ++ w).takeWhile Char.isDigit = t.takeWhile Char.isDigit ∧
      (t ++ w).dropWhile Char.isDigit = t.dropWhile Char.isDigit ++ w := by
  intro t
  induction t with
  | nil =>
      simp only [List.nil_append, List.takeWhile_nil, List.dropWhile_nil]
      cases w with
      | nil => simp
      | cons c w' =>
          simp only [List.all_cons, Bool.and_eq_true] at hw
          simp [List.takeWhile_cons, List.dropWhile_cons, not_isDigit_of_ws c hw.1]
  | cons c t ih =>
      by_cases hc : c.isDigit
      · simp [List.takeWhile_cons, List.dropWhile_cons, hc, ih]
      · simp [List.takeWhile_cons, List.dropWhile_cons, hc]

lemma fracPart_not_dot (x : List Char) (h : ∀ r, x ≠ '.' :: r) : fracPart x = ([], x) := by
  rw [fracPart.eq_def]
  split
  · rename_i r
    exact absurd rfl (h r)
  · rfl

lemma frac_push (w : List Char) (hw : w.all isJsonWs = true) (t : List Char) :
    fracPart (t ++ w) = ((fracPart t).1, (fracPart t).2 ++ w) := by
  cases t with
  | nil =>
      simp only [List.nil_append]
      have he : fracPart w = ([], w) := by
        apply fracPart_not_dot
        intro r heq
        cases w with
        | nil => simp at heq
        | cons c w' =>
            injection heq with h1 _
            simp only [List.all_cons, Bool.and_eq_true] at hw
            exact ws_ne c hw.1 '.' (by decide) h1
      rw [he, show fracPart ([] : List Char) = ([], []) from rfl]
      simp
  | cons c t' =>
      by_cases hc : c = '.'
      · subst hc
        rw [show ('.' :: t') ++ w = '.' :: (t' ++ w) from rfl]
        simp only [fracPart]
        rw [(digits_split w hw t').1, (digits_split w hw t').2]
        by_cases he : (t'.takeWhile Char.isDigit).isEmpty <;> simp [he]
      · have e1 : fracPart (c :: (t' ++ w)) = ([], c :: (t' ++ w)) :=
          fracPart_not_dot _ (fun r heq => by injection heq with h1 h2; exact hc h1)
        have e2 : fracPart (c :: t') = ([], c :: t') :=
          fracPart_not_dot _ (fun r heq => by injection heq with h1 h2; exact hc h1)
        rw [show (c :: t') ++ w = c :: (t' ++ w) from rfl, e1, e2]
        rfl

lemma expPart_cons₂ (e s : Char) (r : List Char) :
    expPart (e :: s :: r) =
      if e = 'e' ∨ e = 'E' then
        if s = '+' ∨ s = '-' then
          if (r.takeWhile Char.isDigit).isEmpty then ([], e :: s :: r)
          else (e :: s :: r.takeWhile Char.isDigit, r.dropWhile Char.isDigit)
        else
          if ((s :: r).takeWhile Char.isDigit).isEmpty then ([], e :: s :: r)
          else (e :: (s :: r).takeWhile Char.isDigit, (s :: r).dropWhile Char.isDigit)
      else ([], e :: s :: r) := rfl

lemma expPart_single (e : Char) :
    expPart [e] = if e = 'e' ∨ e = 'E' then ([], [e]) else ([], [e]) := rfl

lemma exp_push (w : List Char) (hw : w.all isJsonWs = true) (t : List Char) :
    expPart (t ++ w) = ((expPart t).1, (expPart t).2 ++ w) := by
  cases t with
  | nil =>
      simp only [List.nil_append]
      cases w with
      | nil => rfl
      | cons c w' =>
          simp only [List.all_cons, Bool.and_eq_true] at hw
          have hne : ¬ (c = 'e' ∨ c = 'E') := by
            rintro (h | h) <;> exact ws_ne c hw.1 _ (by decide) h
          cases w' with
          | nil => rw [expPart_single, if_neg hne]; rfl
          | cons d w'' =>
              rw [expPart_cons₂, if_neg hne]
              rfl
  | cons c t' =>
      cases t' with
      | nil =>
          rw [show [c] ++ w = c :: w from rfl]
          cases w with
          | nil => simp
          | cons d w' =>
              simp only [List.all_cons, Bool.and_eq_true] at hw
              rw [expPart_cons₂, expPart_single]
              by_cases he : c = 'e' ∨ c = 'E'
              · rw [if_pos he, if_pos he]
                have hd : ¬ (d = '+' ∨ d = '-') := by
                  rintro (h | h) <;> exact ws_ne d hw.1 _ (by decide) h
                rw [if_neg hd]
                have hdig : d.isDigit = false := not_isDigit_of_ws d hw.1
                simp [List.takeWhile_cons, hdig]
              · rw [if_neg he, if_neg he]
                rfl
      | cons s t'' =>
          rw [show (c :: s :: t'') ++ w = c :: s :: (t'' ++ w) from rfl]
          rw [expPart_cons₂, expPart_cons₂]
          by_cases he : c = 'e' ∨ c = 'E'
          · rw [if_pos he, if_pos he]
            by_cases hs : s = '+' ∨ s = '-'
            · rw [if_pos hs, if_pos hs]
              rw [(digits_split w hw t'').1, (digits_split w hw t'').2]
              by_cases hemp : (t''.takeWhile Char.isDigit).isEmpty <;> simp [hemp]
            · rw [if_neg hs, if_neg hs]
              rw [show s :: (t'' ++ w) = (s :: t'') ++ w from rfl]
              rw [(digits_split w hw (s :: t'')).1, (digits_split w hw (s :: t'')).2]
              by_cases hemp : ((s :: t'').takeWhile Char.isDigit).isEmpty <;> simp [hemp]
          · rw [if_neg he, if_neg he]
            rfl

lemma numCore_push (w : List Char) (hw : w.all isJsonWs = true) (t : List Char) :
    numCore (t ++ w) = Option.map (fun p => (p.1, p.2 ++ w)) (numCore t) := by
  cases t with
  | nil =>
      simp only [List.nil_append]
      cases w with
      | nil => rfl
      | cons c w' =>
          simp only [List.all_cons, Bool.and_eq_true] at hw
          have h0 : ¬ c = '0' := ws_ne c hw.1 '0' (by decide)
          have hdig : c.isDigit = false := not_isDigit_of_ws c hw.1
          simp [numCore, h0, hdig]
  | cons c t' =>
      rw [show (c :: t') ++ w = c :: (t' ++ w) from rfl]
      simp only [numCore]
      by_cases h0 : c = '0'
      · rw [if_pos h0, if_pos h0]
        rw [frac_push w hw t']
        rw [exp_push w hw (fracPart t').2]
        simp
      · rw [if_neg h0, if_neg h0]
        by_cases hdig : c.isDigit = true
        · rw [if_pos hdig, if_pos hdig]
          rw [(digits_split w hw t').1, (digits_split w hw t').2]
          rw [frac_push w hw (t'.dropWhile Char.isDigit)]
          rw [exp_push w hw (fracPart (t'.dropWhile Char.isDigit)).2]
          simp
        · rw [if_neg hdig, if_neg hdig]
          rfl

lemma parseNumber_push (w : List Char) (hw : w.all isJsonWs = true) (t : List Char) :
    parseNumber (t ++ w) = Option.map (fun p => (p.1, p.2 ++ w)) (parseNumber t) := by
  cases t with
  | nil =>
      simp only [List.nil_append]
      cases w with
      | nil => rfl
      | cons c w' =>
          simp only [List.all_cons, Bool.and_eq_true] at hw
          have hneg : ¬ c = '-' := ws_ne c hw.1 '-' (by decide)
          have h0 : ¬ c = '0' := ws_ne c hw.1 '0' (by decide)
          have hdig : c.isDigit = false := not_isDigit_of_ws c hw.1
          simp [parseNumber, numCore, hneg, h0, hdig]
  | cons c t' =>
      rw [show (c :: t') ++ w = c :: (t' ++ w) from rfl]
      simp only [parseNumber]
      by_cases hneg : c = '-'
      · rw [if_pos hneg, if_pos hneg, numCore_push w hw t']
        cases numCore t' <;> simp
      · rw [if_neg hneg, if_neg hneg]
        rw [show c :: (t' ++ w) = (c :: t') ++ w from rfl, numCore_push w hw (c :: t')]



lemma hex4_ws1 (a b c d : Char) (h : isJsonWs a = true) : hex4 a b c d = none := by
  simp [hex4, hexDigit?_ws a h]

lemma hex4_ws2 (a b c d : Char) (h : isJsonWs b = true) : hex4 a b c d = none := by
  cases ha : hexDigit? a <;> simp [hex4, ha, hexDigit?_ws b h]

lemma hex4_ws3 (a b c d : Char) (h : isJsonWs c = true) : hex4 a b c d = none := by
  cases ha : hexDigit? a <;> cases hb : hexDigit? b <;>
    simp [hex4, ha, hb, hexDigit?_ws c h]

lemma hex4_ws4 (a b c d : Char) (h : isJsonWs d = true) : hex4 a b c d = none := by
  cases ha : hexDigit? a <;> cases hb : hexDigit? b <;> cases hc : hexDigit? c <;>
    simp [hex4, ha, hb, hc, hexDigit?_ws d h]

lemma parseStringBody_ws_none : ∀ w : List Char, w.all isJsonWs = true →
    parseStringBody w = none := by
  intro w
  induction w with
  | nil => intro _; rfl
  | cons c w' ih =>
      intro hw
      simp only [List.all_cons, Bool.and_eq_true] at hw
      rcases isJsonWs_cases c hw.1 with h | h | h | h <;> subst h
      · rw [parseStringBody.eq_def]
        simp [ih hw.2]
      · rw [parseStringBody.eq_def]
        simp
      · rw [parseStringBody.eq_def]
        simp
      · rw [parseStringBody.eq_def]
        simp

lemma parseStringBody_push (w : List Char) (hw : w.all isJsonWs = true) :
    ∀ n s, s.length ≤ n →
      parseStringBody (s ++ w)
        = Option.map (fun p => (p.1, p.2 ++ w)) (parseStringBody s) := by
  intro n
  induction n with
  | zero =>
      intro s h
      have hnil : s = [] := List.eq_nil_of_length_eq_zero (Nat.le_zero.mp h)
      subst hnil
      simp [parseStringBody_ws_none w hw, parseStringBody]
  | succ n ih =>
      intro s hs
      cases s with
      | nil => simp [parseStringBody_ws_none w hw, parseStringBody]
      | cons c rest =>
          rw [show (c :: rest) ++ w = c :: (rest ++ w) from rfl]
          by_cases hq : c = '"'
          · subst hq
            rw [parseStringBody.eq_def, parseStringBody.eq_def]
            simp
          · by_cases hb : c = '\\'
            · subst hb
              cases rest with
              | nil =>
                  simp only [List.nil_append]
                  cases w with
                  | nil => rfl
                  | cons e w2 =>
                      simp only [List.all_cons, Bool.and_eq_true] at hw
                      rw [parseStringBody.eq_def, parseStringBody.eq_def]
                      simp [ws_ne e hw.1 'u' (by decide), escapeChar_ws e hw.1]
              | cons e r2 =>
                  by_cases hu : e = 'u'
                  · subst hu
                    rcases r2 with _ | ⟨x1, _ | ⟨x2, _ | ⟨x3, _ | ⟨x4, r3⟩⟩⟩⟩
                    · rw [parseStringBody.eq_def, parseStringBody.eq_def]
                      simp only [List.nil_append, List.cons_append]
                      rcases w with _ | ⟨w1, _ | ⟨w2, _ | ⟨w3, _ | ⟨w4, w5⟩⟩⟩⟩ <;>
                        simp_all [hex4_ws1, List.all_cons]
                    · rw [parseStringBody.eq_def, parseStringBody.eq_def]
                      simp only [List.nil_append, List.cons_append]
                      rcases w with _ | ⟨w1, _ | ⟨w2, _ | ⟨w3, w4⟩⟩⟩ <;>
                        simp_all [hex4_ws2, List.all_cons]
                    · rw [parseStringBody.eq_def, parseStringBody.eq_def]
                      simp only [List.nil_append, List.cons_append]
                      rcases w with _ | ⟨w1, _ | ⟨w2, w3⟩⟩ <;>
                        simp_all [hex4_ws3, List.all_cons]
                    · rw [parseStringBody.eq_def, parseStringBody.eq_def]
                      simp only [List.nil_append, List.cons_append]
                      rcases w with _ | ⟨w1, w2⟩ <;>
                        simp_all [hex4_ws4, List.all_cons]
                    · rw [parseStringBody.eq_def, parseStringBody.eq_def]
                      simp only [List.cons_append]
                      have hr3 := ih r3 (by simp at hs; omega)
                      cases hh : hex4 x1 x2 x3 x4 with
                      | none => simp [hh]
                      | some nn =>
                          simp only [hh]
                          rw [hr3]
                          cases parseStringBody r3 <;> simp
                  · rw [parseStringBody.eq_def, parseStringBody.eq_def]
                    simp only [List.cons_append]
                    simp only [hu, if_false, reduceCtorEq, ite_false]
                    cases hec : escapeChar e with
                    | none => simp [hec]
                    | some ec =>
                        simp only [hec]
                        have hr2 := ih r2 (by simp at hs; omega)
                        rw [hr2]
                        cases parseStringBody r2 <;> simp
            · by_cases hctl : c.toNat < 0x20
              · rw [parseStringBody.eq_def, parseStringBody.eq_def]
                simp [hq, hb, hctl]
              · rw [parseStringBody.eq_def, parseStringBody.eq_def]
                have hrest := ih rest (by simp at hs; omega)
                simp only [hq, hb, hctl, if_false, ite_false, reduceCtorEq]
                rw [hrest]
                cases parseStringBody rest <;> simp [hq, hb, hctl]




end Agents

namespace Agents

lemma skipWs_ws_nil (w : List Char) (hw : w.all isJsonWs = true) : skipWs w = [] := by
  rw [skipWs, List.dropWhile_eq_nil_iff]
  intro x hx
  exact List.all_eq_true.mp hw x hx

lemma skipWs_append_nil (x w : List Char) (hw : w.all isJsonWs = true)
    (h : skipWs x = []) : skipWs (x ++ w) = [] := by
  rw [skipWs, List.dropWhile_append, show x.dropWhile isJsonWs = skipWs x from rfl, h]
  simp only [List.isEmpty_nil, if_true]
  exact skipWs_ws_nil w hw

lemma skipWs_append_cons (x w : List Char) (d : Char) (r : List Char)
    (h : skipWs x = d :: r) : skipWs (x ++ w) = d :: (r ++ w) := by
  rw [skipWs, List.dropWhile_append, show x.dropWhile isJsonWs = skipWs x from rfl, h]
  simp

lemma parseValue_nil (f : Nat) : parseValue f [] = none := by cases f <;> rfl

lemma parseMembers_nil (f : Nat) (acc : List (List Char × JsonValue)) :
    parseMembers f [] acc = none := by cases f <;> rfl

lemma parseElems_nil (f : Nat) (acc : List JsonValue) : parseElems f [] acc = none := by
  cases f with
  | zero => rfl
  | succ f => rw [parseElems, parseValue_nil f]

lemma parseObjBody_nil (f : Nat) : parseObjBody f [] = none := by
  cases f with
  | zero => rfl
  | succ f => exact parseMembers_nil f []

lemma parseArrBody_nil (f : Nat) : parseArrBody f [] = none := by
  cases f with
  | zero => rfl
  | succ f => exact parseElems_nil f []

lemma parseMembers_cons_not_quote (f : Nat) (c : Char) (rest : List Char)
    (acc : List (List Char × JsonValue)) (hc : ¬ c = '"') :
    parseMembers (f + 1) (c :: rest) acc = none := by
  rw [parseMembers]
  rw [if_neg hc]

lemma parseObjBody_cons (f : Nat) (c : Char) (r : List Char) :
    parseObjBody (f + 1) (c :: r) =
      if c = '}' then some (.obj [], r) else parseMembers f (c :: r) [] := by
  rw [parseObjBody]

lemma parseArrBody_cons (f : Nat) (c : Char) (r : List Char) :
    parseArrBody (f + 1) (c :: r) =
      if c = ']' then some (.arr [], r) else parseElems f (c :: r) [] := by
  rw [parseArrBody]

lemma parseValue_ws_none (f : Nat) : ∀ w, w.all isJsonWs = true →
    parseValue f w = none := by
  intro w hw
  cases w with
  | nil => exact parseValue_nil f
  | cons c w' =>
      simp only [List.all_cons, Bool.and_eq_true] at hw
      rcases isJsonWs_cases c hw.1 with h | h | h | h <;> subst h <;>
        (cases f with
          | zero => rfl
          | succ f => rw [parseValue]; simp [List.isPrefixOf])

lemma lit_prefix_append (lit x w : List Char)
    (hlit : lit.all (fun c => !(isJsonWs c)) = true) (hw : w.all isJsonWs = true) :
    lit.isPrefixOf (x ++ w) = lit.isPrefixOf x := by
  induction lit generalizing x with
  | nil => simp [List.isPrefixOf]
  | cons l lit' ih =>
      simp only [List.all_cons, Bool.and_eq_true, Bool.not_eq_true'] at hlit
      cases x with
      | nil =>
          simp only [List.nil_append]
          cases w with
          | nil => rfl
          | cons d w' =>
              simp only [List.all_cons, Bool.and_eq_true] at hw
              have hne : (l == d) = false := by
                rw [beq_eq_false_iff_ne]
                intro heq
                subst heq
                rw [hw.1] at hlit
                exact absurd hlit.1 (by simp)
              simp [List.isPrefixOf, hne]
      | cons a x' =>
          simp only [List.cons_append, List.isPrefixOf, List.append_eq]
          rw [ih x' hlit.2]

end Agents

namespace Agents

lemma parseMembers_ws_none (f : Nat) (w : List Char) (acc : List (List Char × JsonValue))
    (hw : w.all isJsonWs = true) : parseMembers f w acc = none := by
  cases w with
  | nil => exact parseMembers_nil f acc
  | cons d w' =>
      simp only [List.all_cons, Bool.and_eq_true] at hw
      cases f with
      | zero => rfl
      | succ f => exact parseMembers_cons_not_quote f d w' acc (ws_ne d hw.1 '"' (by decide))

lemma parse_push (w : List Char) (hw : w.all isJsonWs = true) :
    ∀ f : Nat,
      (∀ s, parseValue f (s ++ w)
          = Option.map (fun p => (p.1, p.2 ++ w)) (parseValue f s)) ∧
      (∀ s, parseObjBody f (s ++ w)
          = Option.map (fun p => (p.1, p.2 ++ w)) (parseObjBody f s)) ∧
      (∀ s acc, parseMembers f (s ++ w) acc
          = Option.map (fun p => (p.1, p.2 ++ w)) (parseMembers f s acc)) ∧
      (∀ s, parseArrBody f (s ++ w)
          = Option.map (fun p => (p.1, p.2 ++ w)) (parseArrBody f s)) ∧
      (∀ s acc, parseElems f (s ++ w) acc
          = Option.map (fun p => (p.1, p.2 ++ w)) (parseElems f s acc)) := by
  intro f
  induction f with
  | zero =>
      exact ⟨fun s => rfl, fun s => rfl, fun s acc => rfl, fun s => rfl, fun s acc => rfl⟩
  | succ f ih =>
      obtain ⟨ihv, iho, ihm, iha, ihe⟩ := ih
      refine ⟨?_, ?_, ?_, ?_, ?_⟩
      -- parseValue
      · intro s
        cases s with
        | nil =>
            rw [List.nil_append, parseValue_ws_none (f + 1) w hw, parseValue_nil]
            rfl
        | cons c rest =>
            rw [show (c :: rest) ++ w = c :: (rest ++ w) from rfl]
            rw [parseValue, parseValue]
            rw [show c :: (rest ++ w) = (c :: rest) ++ w from rfl]
            by_cases hq : c = '"'
            · rw [if_pos hq, if_pos hq]
              simp only [parseStringBody_push w hw rest.length rest (le_refl _)]
              cases parseStringBody rest with
              | none => rfl
              | some p => cases p with | mk k r => rfl
            · rw [if_neg hq, if_neg hq]
              by_cases hob : c = '{'
              · rw [if_pos hob, if_pos hob]
                cases hsr : skipWs rest with
                | nil =>
                    rw [skipWs_append_nil rest w hw hsr, parseObjBody_nil]
                    rfl
                | cons d r' =>
                    rw [skipWs_append_cons rest w d r' hsr,
                      show d :: (r' ++ w) = (d :: r') ++ w from rfl]
                    exact iho (d :: r')
              · rw [if_neg hob, if_neg hob]
                by_cases hab : c = '['
                · rw [if_pos hab, if_pos hab]
                  cases hsr : skipWs rest with
                  | nil =>
                      rw [skipWs_append_nil rest w hw hsr, parseArrBody_nil]
                      rfl
                  | cons d r' =>
                      rw [skipWs_append_cons rest w d r' hsr,
                        show d :: (r' ++ w) = (d :: r') ++ w from rfl]
                      exact iha (d :: r')
                · rw [if_neg hab, if_neg hab]
                  rw [lit_prefix_append "null".data (c :: rest) w (by decide) hw]
                  by_cases hnull : "null".data.isPrefixOf (c :: rest) = true
                  · rw [if_pos hnull, if_pos hnull]
                    have hlen : 3 ≤ rest.length := by
                      have := List.IsPrefix.length_le (List.isPrefixOf_iff_prefix.mp hnull)
                      simp at this
                      omega
                    rw [List.drop_append_of_le_length hlen]
                    rfl
                  · rw [if_neg hnull, if_neg hnull]
                    rw [lit_prefix_append "true".data (c :: rest) w (by decide) hw]
                    by_cases htrue : "true".data.isPrefixOf (c :: rest) = true
                    · rw [if_pos htrue, if_pos htrue]
                      have hlen : 3 ≤ rest.length := by
                        have := List.IsPrefix.length_le (List.isPrefixOf_iff_prefix.mp htrue)
                        simp at this
                        omega
                      rw [List.drop_append_of_le_length hlen]
                      rfl
                    · rw [if_neg htrue, if_neg htrue]
                      rw [lit_prefix_append "false".data (c :: rest) w (by decide) hw]
                      by_cases hfalse : "false".data.isPrefixOf (c :: rest) = true
                      · rw [if_pos hfalse, if_pos hfalse]
                        have hlen : 4 ≤ rest.length := by
                          have := List.IsPrefix.length_le (List.isPrefixOf_iff_prefix.mp hfalse)
                          simp at this
                          omega
                        rw [List.drop_append_of_le_length hlen]
                        rfl
                      · rw [if_neg hfalse, if_neg hfalse]
                        by_cases hnum : c = '-' ∨ c.isDigit
                        · rw [if_pos hnum, if_pos hnum]
                          simp only [parseNumber_push w hw (c :: rest)]
                          cases hpn : parseNumber (c :: rest) with
                          | some p =>
                              cases p with | mk lex r => rfl
                          | none =>
                              simp only [Option.map_none']
                              rw [lit_prefix_append "-Infinity".data (c :: rest) w
                                (by decide) hw]
                              by_cases hinf : "-Infinity".data.isPrefixOf (c :: rest) = true
                              · rw [if_pos hinf, if_pos hinf]
                                have hlen : 8 ≤ rest.length := by
                                  have := List.IsPrefix.length_le
                                    (List.isPrefixOf_iff_prefix.mp hinf)
                                  simp at this
                                  omega
                                rw [List.drop_append_of_le_length hlen]
                                rfl
                              · rw [if_neg hinf, if_neg hinf]
                                rfl
                        · rw [if_neg hnum, if_neg hnum]
                          rw [lit_prefix_append "NaN".data (c :: rest) w (by decide) hw]
                          by_cases hnan : "NaN".data.isPrefixOf (c :: rest) = true
                          · rw [if_pos hnan, if_pos hnan]
                            have hlen : 2 ≤ rest.length := by
                              have := List.IsPrefix.length_le
                                (List.isPrefixOf_iff_prefix.mp hnan)
                              simp at this
                              omega
                            rw [List.drop_append_of_le_length hlen]
                            rfl
                          · rw [if_neg hnan, if_neg hnan]
                            rw [lit_prefix_append "Infinity".data (c :: rest) w (by decide) hw]
                            by_cases hi : "Infinity".data.isPrefixOf (c :: rest) = true
                            · rw [if_pos hi, if_pos hi]
                              have hlen : 7 ≤ rest.length := by
                                have := List.IsPrefix.length_le
                                  (List.isPrefixOf_iff_prefix.mp hi)
                                simp at this
                                omega
                              rw [List.drop_append_of_le_length hlen]
                              rfl
                            · rw [if_neg hi, if_neg hi]
                              rfl
      -- parseObjBody
      · intro s
        cases s with
        | nil =>
            rw [List.nil_append, parseObjBody_nil]
            cases w with
            | nil => rw [parseObjBody_nil]; rfl
            | cons d w' =>
                simp only [List.all_cons, Bool.and_eq_true] at hw
                rw [parseObjBody_cons, if_neg (ws_ne d hw.1 '}' (by decide)),
                  parseMembers_ws_none f (d :: w') [] (by simp [List.all_cons, hw.1, hw.2])]
                rfl
        | cons c r =>
            rw [show (c :: r) ++ w = c :: (r ++ w) from rfl,
              parseObjBody_cons, parseObjBody_cons]
            by_cases hb : c = '}'
            · rw [if_pos hb, if_pos hb]; rfl
            · rw [if_neg hb, if_neg hb,
                show c :: (r ++ w) = (c :: r) ++ w from rfl]
              exact ihm (c :: r) []
      -- parseMembers
      · intro s acc
        cases s with
        | nil =>
            rw [List.nil_append, parseMembers_ws_none (f + 1) w acc hw, parseMembers_nil]
            rfl
        | cons c rest =>
            rw [show (c :: rest) ++ w = c :: (rest ++ w) from rfl]
            rw [parseMembers, parseMembers]
            by_cases hq : c = '"'
            · rw [if_pos hq, if_pos hq]
              simp only [parseStringBody_push w hw rest.length rest (le_refl _)]
              cases hk : parseStringBody rest with
              | none => rfl
              | some p =>
                  obtain ⟨k, r1⟩ := p
                  simp only [Option.map_some']
                  cases hsr : skipWs r1 with
                  | nil =>
                      simp only [skipWs_append_nil r1 w hw hsr]
                      rfl
                  | cons c2 r3 =>
                      simp only [skipWs_append_cons r1 w c2 r3 hsr]
                      by_cases hc2 : c2 = ':'
                      · rw [if_pos hc2, if_pos hc2]
                        cases hsr3 : skipWs r3 with
                        | nil =>
                            simp only [skipWs_append_nil r3 w hw hsr3, parseValue_nil]
                            rfl
                        | cons d r3' =>
                            simp only [skipWs_append_cons r3 w d r3' hsr3,
                              show d :: (r3' ++ w) = (d :: r3') ++ w from rfl,
                              ihv (d :: r3')]
                            cases hv : parseValue f (d :: r3') with
                            | none => rfl
                            | some p2 =>
                                obtain ⟨v, r4⟩ := p2
                                simp only [Option.map_some']
                                cases hsr4 : skipWs r4 with
                                | nil =>
                                    simp only [skipWs_append_nil r4 w hw hsr4]
                                    rfl
                                | cons c3 r6 =>
                                    simp only [skipWs_append_cons r4 w c3 r6 hsr4]
                                    by_cases hc3 : c3 = ','
                                    · rw [if_pos hc3, if_pos hc3]
                                      cases hsr6 : skipWs r6 with
                                      | nil =>
                                          simp only [skipWs_append_nil r6 w hw hsr6,
                                            parseMembers_nil]
                                          rfl
                                      | cons c4 r7 =>
                                          simp only [skipWs_append_cons r6 w c4 r7 hsr6,
                                            show c4 :: (r7 ++ w) = (c4 :: r7) ++ w from rfl]
                                          exact ihm (c4 :: r7) (setKey acc k v)
                                    · rw [if_neg hc3, if_neg hc3]
                                      by_cases hc3' : c3 = '}'
                                      · rw [if_pos hc3', if_pos hc3']; rfl
                                      · rw [if_neg hc3', if_neg hc3']; rfl
                      · rw [if_neg hc2, if_neg hc2]; rfl
            · rw [if_neg hq, if_neg hq]; rfl
      -- parseArrBody
      · intro s
        cases s with
        | nil =>
            rw [List.nil_append, parseArrBody_nil]
            cases w with
            | nil => rw [parseArrBody_nil]; rfl
            | cons d w' =>
                simp only [List.all_cons, Bool.and_eq_true] at hw
                rw [parseArrBody_cons, if_neg (ws_ne d hw.1 ']' (by decide))]
                rw [show parseElems f (d :: w') [] =
                    Option.map (fun p => (p.1, p.2 ++ ([] : List Char)))
                      (parseElems f (d :: w') []) from by
                  cases parseElems f (d :: w') [] with
                  | none => rfl
                  | some p => cases p with | mk a b => simp]
                rw [show parseElems f (d :: w') [] = none from ?hel]
                · rfl
                case hel =>
                  cases f with
                  | zero => rfl
                  | succ f' =>
                      rw [parseElems,
                        parseValue_ws_none f' (d :: w') (by simp [List.all_cons, hw.1, hw.2])]
        | cons c r =>
            rw [show (c :: r) ++ w = c :: (r ++ w) from rfl,
              parseArrBody_cons, parseArrBody_cons]
            by_cases hb : c = ']'
            · rw [if_pos hb, if_pos hb]; rfl
            · rw [if_neg hb, if_neg hb,
                show c :: (r ++ w) = (c :: r) ++ w from rfl]
              exact ihe (c :: r) []
      -- parseElems
      · intro s acc
        cases s with
        | nil =>
            rw [List.nil_append]
            rw [show parseElems (f + 1) w acc = none from by
              cases w with
              | nil => exact parseElems_nil (f + 1) acc
              | cons d w' =>
                  rw [parseElems, parseValue_ws_none f (d :: w') hw]]
            rw [parseElems_nil]
            rfl
        | cons c rest =>
            rw [show (c :: rest) ++ w = c :: (rest ++ w) from rfl]
            rw [parseElems, parseElems]
            rw [show c :: (rest ++ w) = (c :: rest) ++ w from rfl]
            simp only [ihv (c :: rest)]
            cases hv : parseValue f (c :: rest) with
            | none => rfl
            | some p =>
                obtain ⟨v, r1⟩ := p
                simp only [Option.map_some']
                cases hsr : skipWs r1 with
                | nil =>
                    simp only [skipWs_append_nil r1 w hw hsr]
                    rfl
                | cons c2 r2 =>
                    simp only [skipWs_append_cons r1 w c2 r2 hsr]
                    by_cases hc2 : c2 = ','
                    · rw [if_pos hc2, if_pos hc2]
                      cases hsr2 : skipWs r2 with
                      | nil =>
                          simp only [skipWs_append_nil r2 w hw hsr2, parseElems_nil]
                          rfl
                      | cons c3 r3 =>
                          simp only [skipWs_append_cons r2 w c3 r3 hsr2,
                            show c3 :: (r3 ++ w) = (c3 :: r3) ++ w from rfl]
                          exact ihe (c3 :: r3) (acc ++ [v])
                    · rw [if_neg hc2, if_neg hc2]
                      by_cases hc2' : c2 = ']'
                      · rw [if_pos hc2', if_pos hc2']; rfl
                      · rw [if_neg hc2', if_neg hc2']; rfl

end Agents

namespace Agents

lemma length_dropWhile_le (p : Char → Bool) (l : List Char) :
    (l.dropWhile p).length ≤ l.length := by
  induction l with
  | nil => simp
  | cons a l ih =>
      by_cases h : p a
      · rw [List.dropWhile_cons_of_pos h]
        exact Nat.le_trans ih (by simp)
      · rw [List.dropWhile_cons_of_neg h]

lemma dropWhile_head_false (p : Char → Bool) :
    ∀ (l : List Char) (c : Char) (r : List Char), l.dropWhile p = c :: r → p c = false := by
  intro l
  induction l with
  | nil => intro c r h; simp at h
  | cons a l ih =>
      intro c r h
      by_cases hpa : p a
      · rw [List.dropWhile_cons_of_pos hpa] at h
        exact ih c r h
      · rw [List.dropWhile_cons_of_neg hpa] at h
        cases h
        exact Bool.eq_false_iff.mpr hpa

lemma append_cancel_nil {α : Type} (l r : List α) (h : l ++ r = r) : l = [] := by
  have := congrArg List.length h
  simp at this
  exact this

lemma all_ends_in (p : Char → Bool) (l : List Char) (hne : l ≠ [])
    (hall : l.all p = true) : ∃ q c, l = q ++ [c] ∧ p c = true := by
  refine ⟨l.dropLast, l.getLast hne, (List.dropLast_append_getLast hne).symm, ?_⟩
  exact List.all_eq_true.mp hall _ (List.getLast_mem hne)

lemma parseStringBody_closes :
    ∀ n s, s.length ≤ n → ∀ k r, parseStringBody s = some (k, r) →
      ∃ pre, s = pre ++ '"' :: r := by
  intro n
  induction n with
  | zero =>
      intro s h k r hp
      have hnil : s = [] := List.eq_nil_of_length_eq_zero (Nat.le_zero.mp h)
      subst hnil
      simp [parseStringBody] at hp
  | succ n ih =>
      intro s hs k r hp
      cases s with
      | nil => simp [parseStringBody] at hp
      | cons c rest =>
          by_cases hq : c = '"'
          · subst hq
            rw [parseStringBody.eq_def] at hp
            simp at hp
            exact ⟨[], by simp [hp.2]⟩
          · by_cases hb : c = '\\'
            · subst hb
              cases rest with
              | nil => simp [parseStringBody] at hp
              | cons e r2 =>
                  by_cases hu : e = 'u'
                  · subst hu
                    rcases r2 with _ | ⟨x1, _ | ⟨x2, _ | ⟨x3, _ | ⟨x4, r3⟩⟩⟩⟩ <;>
                      rw [parseStringBody.eq_def] at hp <;> simp at hp
                    cases hh : hex4 x1 x2 x3 x4 with
                    | none => simp [hh] at hp
                    | some nn =>
                        simp only [hh] at hp
                        cases hps : parseStringBody r3 with
                        | none => simp [hps] at hp
                        | some q =>
                            obtain ⟨tl, rr⟩ := q
                            simp [hps] at hp
                            obtain ⟨pre, hpre⟩ := ih r3 (by simp at hs; omega) tl r
                              (by rw [hps, hp.2])
                            exact ⟨'\\' :: 'u' :: x1 :: x2 :: x3 :: x4 :: pre,
                              by simp [hpre]⟩
                  · rw [parseStringBody.eq_def] at hp
                    simp [hu] at hp
                    cases hec : escapeChar e with
                    | none => simp [hec] at hp
                    | some ec =>
                        simp only [hec] at hp
                        cases hps : parseStringBody r2 with
                        | none => simp [hps] at hp
                        | some q =>
                            obtain ⟨tl, rr⟩ := q
                            simp [hps] at hp
                            obtain ⟨pre, hpre⟩ := ih r2 (by simp at hs; omega) tl r
                              (by rw [hps, hp.2])
                            exact ⟨'\\' :: e :: pre, by simp [hpre]⟩
            · by_cases hctl : c.toNat < 0x20
              · rw [parseStringBody.eq_def] at hp
                simp [hq, hb, hctl] at hp
              · rw [parseStringBody.eq_def] at hp
                cases hps : parseStringBody rest with
                | none => simp [hq, hb, hctl, hps] at hp
                | some q =>
                    obtain ⟨tl, rr⟩ := q
                    simp [hq, hb, hctl, hps] at hp
                    obtain ⟨pre, hpre⟩ := ih rest (by simp at hs; omega) tl r
                      (by rw [hps, hp.2])
                    exact ⟨c :: pre, by simp [hpre]⟩

end Agents

namespace Agents

lemma not_pyWs_of_isDigit (c : Char) (h : c.isDigit = true) : isPyWs c = false := by
  cases hcc : isPyWs c
  · rfl
  · simp only [isPyWs, Bool.or_eq_true, decide_eq_true_eq] at hcc
    rcases hcc with ((((h1 | h1) | h1) | h1) | h1) | h1 <;> subst h1 <;>
      simp [Char.isDigit] at h

lemma fracPart_dot (r : List Char) : fracPart ('.' :: r)
    = if (r.takeWhile Char.isDigit).isEmpty then (([] : List Char), '.' :: r)
      else ('.' :: r.takeWhile Char.isDigit, r.dropWhile Char.isDigit) := rfl

lemma fracPart_consumes (t con rest : List Char) (h : fracPart t = (con, rest)) :
    t = con ++ rest ∧ (con = [] ∨ ∃ q c, con = q ++ [c] ∧ c.isDigit = true) := by
  cases t with
  | nil =>
      have hfnil : fracPart ([] : List Char) = ([], []) := rfl
      rw [hfnil] at h
      injection h with h1 h2
      subst h1
      subst h2
      exact ⟨rfl, Or.inl rfl⟩
  | cons c r =>
      by_cases hc : c = '.'
      · subst hc
        rw [fracPart_dot] at h
        by_cases he : (r.takeWhile Char.isDigit).isEmpty
        · rw [if_pos he] at h
          injection h with h1 h2
          subst h1
          subst h2
          exact ⟨rfl, Or.inl rfl⟩
        · rw [if_neg he] at h
          injection h with h1 h2
          subst h1
          subst h2
          constructor
          · rw [show ('.' :: r.takeWhile Char.isDigit) ++ r.dropWhile Char.isDigit
                = '.' :: (r.takeWhile Char.isDigit ++ r.dropWhile Char.isDigit) from rfl,
              List.takeWhile_append_dropWhile]
          · refine Or.inr ?_
            obtain ⟨q, d, hq, hd⟩ := all_ends_in Char.isDigit (r.takeWhile Char.isDigit)
              (by simpa [List.isEmpty_iff] using he) List.all_takeWhile
            exact ⟨'.' :: q, d, by rw [hq]; rfl, hd⟩
      · rw [fracPart_not_dot (c :: r)
            (by intro r' hcon; injection hcon with h1 _; exact hc h1)] at h
        injection h with h1 h2
        subst h1
        subst h2
        exact ⟨rfl, Or.inl rfl⟩

lemma expPart_nil : expPart ([] : List Char) = ([], []) := rfl

lemma expPart_consumes (t con rest : List Char) (h : expPart t = (con, rest)) :
    t = con ++ rest ∧ (con = [] ∨ ∃ q c, con = q ++ [c] ∧ c.isDigit = true) := by
  cases t with
  | nil =>
      rw [expPart_nil] at h
      injection h with h1 h2
      subst h1
      subst h2
      exact ⟨rfl, Or.inl rfl⟩
  | cons e r =>
      cases r with
      | nil =>
          rw [expPart_single] at h
          by_cases hee : e = 'e' ∨ e = 'E'
          · rw [if_pos hee] at h
            injection h with h1 h2
            subst h1
            subst h2
            exact ⟨rfl, Or.inl rfl⟩
          · rw [if_neg hee] at h
            injection h with h1 h2
            subst h1
            subst h2
            exact ⟨rfl, Or.inl rfl⟩
      | cons s r2 =>
          rw [expPart_cons₂] at h
          by_cases hee : e = 'e' ∨ e = 'E'
          · rw [if_pos hee] at h
            by_cases hs : s = '+' ∨ s = '-'
            · rw [if_pos hs] at h
              by_cases hd : (r2.takeWhile Char.isDigit).isEmpty
              · rw [if_pos hd] at h
                injection h with h1 h2
                subst h1
                subst h2
                exact ⟨rfl, Or.inl rfl⟩
              · rw [if_neg hd] at h
                injection h with h1 h2
                subst h1
                subst h2
                constructor
                · rw [show (e :: s :: r2.takeWhile Char.isDigit) ++ r2.dropWhile Char.isDigit
                      = e :: s :: (r2.takeWhile Char.isDigit ++ r2.dropWhile Char.isDigit)
                      from rfl, List.takeWhile_append_dropWhile]
                · refine Or.inr ?_
                  obtain ⟨q, d, hq, hdd⟩ := all_ends_in Char.isDigit
                    (r2.takeWhile Char.isDigit)
                    (by simpa [List.isEmpty_iff] using hd) List.all_takeWhile
                  exact ⟨e :: s :: q, d, by rw [hq]; rfl, hdd⟩
            · rw [if_neg hs] at h
              by_cases hd : ((s :: r2).takeWhile Char.isDigit).isEmpty
              · rw [if_pos hd] at h
                injection h with h1 h2
                subst h1
                subst h2
                exact ⟨rfl, Or.inl rfl⟩
              · rw [if_neg hd] at h
                injection h with h1 h2
                subst h1
                subst h2
                constructor
                · rw [show (e :: (s :: r2).takeWhile Char.isDigit)
                        ++ (s :: r2).dropWhile Char.isDigit
                      = e :: ((s :: r2).takeWhile Char.isDigit
                        ++ (s :: r2).dropWhile Char.isDigit)
                      from rfl, List.takeWhile_append_dropWhile]
                · refine Or.inr ?_
                  obtain ⟨q, d, hq, hdd⟩ := all_ends_in Char.isDigit
                    ((s :: r2).takeWhile Char.isDigit)
                    (by simpa [List.isEmpty_iff] using hd) List.all_takeWhile
                  exact ⟨e :: q, d, by rw [hq]; rfl, hdd⟩
          · rw [if_neg hee] at h
            injection h with h1 h2
            subst h1
            subst h2
            exact ⟨rfl, Or.inl rfl⟩

end Agents

namespace Agents

lemma numCore_consumes (s lex rest : List Char) (h : numCore s = some (lex, rest)) :
    s = lex ++ rest ∧ ∃ q c, lex = q ++ [c] ∧ c.isDigit = true := by
  cases s with
  | nil => simp [numCore] at h
  | cons c r =>
      rw [numCore] at h
      by_cases h0 : c = '0'
      · rw [if_pos h0] at h
        rcases hfr : fracPart r with ⟨f1, f2⟩
        rcases hex : expPart f2 with ⟨e1, e2⟩
        simp only [hfr, hex] at h
        injection h with h'
        injection h' with h1 h2
        subst h0
        obtain ⟨hr, hfd⟩ := fracPart_consumes r f1 f2 hfr
        obtain ⟨hf2, hed⟩ := expPart_consumes f2 e1 e2 hex
        subst h1
        subst h2
        constructor
        · rw [hr, hf2]
          simp
        · rcases hed with he1 | ⟨q, d, hq, hd⟩
          · subst he1
            rcases hfd with hf1 | ⟨q, d, hq, hd⟩
            · subst hf1
              exact ⟨[], '0', rfl, by decide⟩
            · exact ⟨'0' :: q, d, by rw [hq]; simp, hd⟩
          · exact ⟨'0' :: f1 ++ q, d, by rw [hq]; simp, hd⟩
      · rw [if_neg h0] at h
        by_cases hd : c.isDigit
        · rw [if_pos hd] at h
          rcases hfr : fracPart (r.dropWhile Char.isDigit) with ⟨f1, f2⟩
          rcases hex : expPart f2 with ⟨e1, e2⟩
          simp only [hfr, hex] at h
          injection h with h'
          injection h' with h1 h2
          obtain ⟨hr, hfd⟩ := fracPart_consumes (r.dropWhile Char.isDigit) f1 f2 hfr
          obtain ⟨hf2, hed⟩ := expPart_consumes f2 e1 e2 hex
          subst h1
          subst h2
          constructor
          · conv_lhs => rw [show r = r.takeWhile Char.isDigit ++ r.dropWhile Char.isDigit
              from (List.takeWhile_append_dropWhile ..).symm]
            rw [hr, hf2]
            simp
          · rcases hed with he1 | ⟨q, d, hq, hdd⟩
            · subst he1
              rcases hfd with hf1 | ⟨q, d, hq, hdd⟩
              · subst hf1
                obtain ⟨q, d, hq, hdd⟩ := all_ends_in Char.isDigit
                  (c :: r.takeWhile Char.isDigit) (by simp)
                  (by simp [hd, List.all_takeWhile])
                exact ⟨q, d, by rw [← hq]; simp, hdd⟩
              · exact ⟨c :: r.takeWhile Char.isDigit ++ q, d, by rw [hq]; simp, hdd⟩
            · exact ⟨(c :: r.takeWhile Char.isDigit) ++ f1 ++ q, d, by rw [hq]; simp, hdd⟩
        · rw [if_neg hd] at h
          simp at h

lemma parseNumber_consumes (s lex rest : List Char)
    (h : parseNumber s = some (lex, rest)) :
    ∃ pre c, s = pre ++ c :: rest ∧ isPyWs c = false := by
  cases s with
  | nil => simp [parseNumber] at h
  | cons c r =>
      rw [parseNumber] at h
      by_cases hm : c = '-'
      · rw [if_pos hm] at h
        cases hn : numCore r with
        | none => rw [hn] at h; simp at h
        | some p =>
            obtain ⟨l2, r2⟩ := p
            rw [hn] at h
            simp only [Option.map_some'] at h
            injection h with h'
            injection h' with h1 h2
            obtain ⟨hr, q, d, hq, hdd⟩ := numCore_consumes r l2 r2 hn
            subst hm
            subst h2
            refine ⟨'-' :: q, d, ?_, not_pyWs_of_isDigit d hdd⟩
            rw [hr, hq]
            simp
      · rw [if_neg hm] at h
        obtain ⟨hr, q, d, hq, hdd⟩ := numCore_consumes (c :: r) lex rest h
        refine ⟨q, d, ?_, not_pyWs_of_isDigit d hdd⟩
        rw [hr, hq]
        simp

end Agents

namespace Agents

lemma isPrefixOf_decomp (lit s : List Char) (h : lit.isPrefixOf s = true) :
    s = lit ++ s.drop lit.length := by
  obtain ⟨t, ht⟩ := List.isPrefixOf_iff_prefix.mp h
  rw [← ht, List.drop_left]

lemma split_ws (l : List Char) (c : Char) (r : List Char) (h : skipWs l = c :: r) :
    l = l.takeWhile isJsonWs ++ c :: r := by
  conv_lhs => rw [← List.takeWhile_append_dropWhile (p := isJsonWs) (l := l)]
  rw [show List.dropWhile isJsonWs l = c :: r from h]

lemma parse_consumes : ∀ f : Nat,
    (∀ s v r, parseValue f s = some (v, r) →
      ∃ pre c, s = pre ++ c :: r ∧ isPyWs c = false) ∧
    (∀ s v r, parseObjBody f s = some (v, r) →
      ∃ pre c, s = pre ++ c :: r ∧ isPyWs c = false) ∧
    (∀ s acc v r, parseMembers f s acc = some (v, r) →
      ∃ pre c, s = pre ++ c :: r ∧ isPyWs c = false) ∧
    (∀ s v r, parseArrBody f s = some (v, r) →
      ∃ pre c, s = pre ++ c :: r ∧ isPyWs c = false) ∧
    (∀ s acc v r, parseElems f s acc = some (v, r) →
      ∃ pre c, s = pre ++ c :: r ∧ isPyWs c = false) := by
  intro f
  induction f with
  | zero =>
      refine ⟨?_, ?_, ?_, ?_, ?_⟩
      · intro s v r h; exact absurd h (by rw [show parseValue 0 s = none from rfl]; simp)
      · intro s v r h
        exact absurd h (by rw [show parseObjBody 0 s = none from rfl]; simp)
      · intro s acc v r h
        exact absurd h (by rw [show parseMembers 0 s acc = none from rfl]; simp)
      · intro s v r h
        exact absurd h (by rw [show parseArrBody 0 s = none from rfl]; simp)
      · intro s acc v r h
        exact absurd h (by rw [show parseElems 0 s acc = none from rfl]; simp)
  | succ f ih =>
      obtain ⟨ihv, iho, ihm, iha, ihe⟩ := ih
      refine ⟨?_, ?_, ?_, ?_, ?_⟩
      -- parseValue
      · intro s v r h
        cases s with
        | nil =>
            exact absurd h (by rw [show parseValue (f + 1) [] = none from rfl]; simp)
        | cons c rest =>
            rw [parseValue] at h
            by_cases hq : c = '"'
            · rw [if_pos hq] at h
              cases hsb : parseStringBody rest with
              | none => simp [hsb] at h
              | some p =>
                  obtain ⟨k, r1⟩ := p
                  simp only [hsb, Option.some.injEq, Prod.mk.injEq] at h
                  obtain ⟨h1, h2⟩ := h
                  subst h2
                  obtain ⟨pre, hpre⟩ :=
                    parseStringBody_closes rest.length rest le_rfl k r1 hsb
                  exact ⟨c :: pre, '"', by rw [hpre]; simp, by decide⟩
            · rw [if_neg hq] at h
              by_cases hob : c = '{'
              · rw [if_pos hob] at h
                obtain ⟨pre, c', hpre, hc'⟩ := iho (skipWs rest) v r h
                refine ⟨c :: rest.takeWhile isJsonWs ++ pre, c', ?_, hc'⟩
                have hr : rest.takeWhile isJsonWs ++ skipWs rest = rest :=
                  List.takeWhile_append_dropWhile ..
                conv_lhs => rw [← hr]
                rw [hpre]
                simp
              · rw [if_neg hob] at h
                by_cases hab : c = '['
                · rw [if_pos hab] at h
                  obtain ⟨pre, c', hpre, hc'⟩ := iha (skipWs rest) v r h
                  refine ⟨c :: rest.takeWhile isJsonWs ++ pre, c', ?_, hc'⟩
                  have hr : rest.takeWhile isJsonWs ++ skipWs rest = rest :=
                    List.takeWhile_append_dropWhile ..
                  conv_lhs => rw [← hr]
                  rw [hpre]
                  simp
                · rw [if_neg hab] at h
                  by_cases hnull : "null".data.isPrefixOf (c :: rest) = true
                  · rw [if_pos hnull] at h
                    simp only [Option.some.injEq, Prod.mk.injEq] at h
                    obtain ⟨h1, h2⟩ := h
                    subst h2
                    have hd := isPrefixOf_decomp "null".data (c :: rest) hnull
                    exact ⟨"nul".data, 'l', by rw [hd]; rfl, by decide⟩
                  · rw [if_neg hnull] at h
                    by_cases htr : "true".data.isPrefixOf (c :: rest) = true
                    · rw [if_pos htr] at h
                      simp only [Option.some.injEq, Prod.mk.injEq] at h
                      obtain ⟨h1, h2⟩ := h
                      subst h2
                      have hd := isPrefixOf_decomp "true".data (c :: rest) htr
                      exact ⟨"tru".data, 'e', by rw [hd]; rfl, by decide⟩
                    · rw [if_neg htr] at h
                      by_cases hfa : "false".data.isPrefixOf (c :: rest) = true
                      · rw [if_pos hfa] at h
                        simp only [Option.some.injEq, Prod.mk.injEq] at h
                        obtain ⟨h1, h2⟩ := h
                        subst h2
                        have hd := isPrefixOf_decomp "false".data (c :: rest) hfa
                        exact ⟨"fals".data, 'e', by rw [hd]; rfl, by decide⟩
                      · rw [if_neg hfa] at h
                        by_cases hnum : c = '-' ∨ c.isDigit
                        · rw [if_pos hnum] at h
                          cases hpn : parseNumber (c :: rest) with
                          | some p =>
                              obtain ⟨lex, r'⟩ := p
                              simp only [hpn, Option.some.injEq, Prod.mk.injEq] at h
                              obtain ⟨h1, h2⟩ := h
                              subst h2
                              exact parseNumber_consumes (c :: rest) lex r' hpn
                          | none =>
                              simp only [hpn] at h
                              by_cases hinf :
                                  "-Infinity".data.isPrefixOf (c :: rest) = true
                              · rw [if_pos hinf] at h
                                simp only [Option.some.injEq, Prod.mk.injEq] at h
                                obtain ⟨h1, h2⟩ := h
                                subst h2
                                have hd :=
                                  isPrefixOf_decomp "-Infinity".data (c :: rest) hinf
                                exact ⟨"-Infinit".data, 'y', by rw [hd]; rfl, by decide⟩
                              · rw [if_neg hinf] at h
                                simp at h
                        · rw [if_neg hnum] at h
                          by_cases hnan : "NaN".data.isPrefixOf (c :: rest) = true
                          · rw [if_pos hnan] at h
                            simp only [Option.some.injEq, Prod.mk.injEq] at h
                            obtain ⟨h1, h2⟩ := h
                            subst h2
                            have hd := isPrefixOf_decomp "NaN".data (c :: rest) hnan
                            exact ⟨"Na".data, 'N', by rw [hd]; rfl, by decide⟩
                          · rw [if_neg hnan] at h
                            by_cases hin : "Infinity".data.isPrefixOf (c :: rest) = true
                            · rw [if_pos hin] at h
                              simp only [Option.some.injEq, Prod.mk.injEq] at h
                              obtain ⟨h1, h2⟩ := h
                              subst h2
                              have hd :=
                                isPrefixOf_decomp "Infinity".data (c :: rest) hin
                              exact ⟨"Infinit".data, 'y', by rw [hd]; rfl, by decide⟩
                            · rw [if_neg hin] at h
                              simp at h
      -- parseObjBody
      · intro s v r h
        cases s with
        | nil =>
            rw [show parseObjBody (f + 1) [] = parseMembers f [] [] from rfl] at h
            exact ihm [] [] v r h
        | cons c r' =>
            rw [parseObjBody_cons] at h
            by_cases hb : c = '}'
            · rw [if_pos hb] at h
              simp only [Option.some.injEq, Prod.mk.injEq] at h
              obtain ⟨h1, h2⟩ := h
              subst h2
              subst hb
              exact ⟨[], '}', by simp, by decide⟩
            · rw [if_neg hb] at h
              exact ihm (c :: r') [] v r h
      -- parseMembers
      · intro s acc v r h
        cases s with
        | nil =>
            exact absurd h
              (by rw [show parseMembers (f + 1) [] acc = none from rfl]; simp)
        | cons c rest =>
            rw [parseMembers] at h
            by_cases hq : c = '"'
            · rw [if_pos hq] at h
              cases hsb : parseStringBody rest with
              | none => simp [hsb] at h
              | some p =>
                  obtain ⟨k, r1⟩ := p
                  simp only [hsb] at h
                  cases hs1 : skipWs r1 with
                  | nil => simp [hs1] at h
                  | cons c2 r3 =>
                      simp only [hs1] at h
                      by_cases hc2 : c2 = ':'
                      · rw [if_pos hc2] at h
                        cases hv : parseValue f (skipWs r3) with
                        | none => simp [hv] at h
                        | some p2 =>
                            obtain ⟨v1, r4⟩ := p2
                            simp only [hv] at h
                            cases hs4 : skipWs r4 with
                            | nil => simp [hs4] at h
                            | cons c3 r6 =>
                                simp only [hs4] at h
                                obtain ⟨pre1, hpre1⟩ :=
                                  parseStringBody_closes rest.length rest le_rfl k r1 hsb
                                obtain ⟨pre2, cv, hpre2, hcv⟩ := ihv (skipWs r3) v1 r4 hv
                                have er3 : r3.takeWhile isJsonWs ++ skipWs r3 = r3 :=
                                  List.takeWhile_append_dropWhile ..
                                by_cases h3c : c3 = ','
                                · rw [if_pos h3c] at h
                                  obtain ⟨pre3, cl, hp3, hcl⟩ :=
                                    ihm (skipWs r6) (setKey acc k v1) v r h
                                  have er6 : r6.takeWhile isJsonWs ++ skipWs r6 = r6 :=
                                    List.takeWhile_append_dropWhile ..
                                  refine ⟨c :: pre1 ++ '"' :: r1.takeWhile isJsonWs
                                    ++ c2 :: r3.takeWhile isJsonWs ++ pre2
                                    ++ cv :: r4.takeWhile isJsonWs ++ c3
                                    :: r6.takeWhile isJsonWs ++ pre3, cl, ?_, hcl⟩
                                  rw [hpre1]
                                  conv_lhs => rw [split_ws r1 c2 r3 hs1]
                                  conv_lhs => rw [← er3]
                                  rw [hpre2]
                                  conv_lhs => rw [split_ws r4 c3 r6 hs4]
                                  conv_lhs => rw [← er6]
                                  rw [hp3]
                                  simp
                                · rw [if_neg h3c] at h
                                  by_cases h3b : c3 = '}'
                                  · rw [if_pos h3b] at h
                                    simp only [Option.some.injEq, Prod.mk.injEq] at h
                                    obtain ⟨h1, h2⟩ := h
                                    subst h2
                                    refine ⟨c :: pre1 ++ '"' :: r1.takeWhile isJsonWs
                                      ++ c2 :: r3.takeWhile isJsonWs ++ pre2
                                      ++ cv :: r4.takeWhile isJsonWs, c3, ?_, ?_⟩
                                    · rw [hpre1]
                                      conv_lhs => rw [split_ws r1 c2 r3 hs1]
                                      conv_lhs => rw [← er3]
                                      rw [hpre2]
                                      conv_lhs => rw [split_ws r4 c3 r6 hs4]
                                      simp
                                    · subst h3b
                                      decide
                                  · rw [if_neg h3b] at h
                                    simp at h
                      · rw [if_neg hc2] at h
                        simp at h
            · rw [if_neg hq] at h
              simp at h
      -- parseArrBody
      · intro s v r h
        cases s with
        | nil =>
            rw [show parseArrBody (f + 1) [] = parseElems f [] [] from rfl] at h
            exact ihe [] [] v r h
        | cons c r' =>
            rw [parseArrBody_cons] at h
            by_cases hb : c = ']'
            · rw [if_pos hb] at h
              simp only [Option.some.injEq, Prod.mk.injEq] at h
              obtain ⟨h1, h2⟩ := h
              subst h2
              subst hb
              exact ⟨[], ']', by simp, by decide⟩
            · rw [if_neg hb] at h
              exact ihe (c :: r') [] v r h
      -- parseElems
      · intro s acc v r h
        rw [parseElems] at h
        cases hv : parseValue f s with
        | none => simp [hv] at h
        | some p =>
            obtain ⟨v1, r1⟩ := p
            simp only [hv] at h
            cases hs1 : skipWs r1 with
            | nil => simp [hs1] at h
            | cons c2 r2 =>
                simp only [hs1] at h
                obtain ⟨pre1, cv, hp1, hcv⟩ := ihv s v1 r1 hv
                by_cases hc2 : c2 = ','
                · rw [if_pos hc2] at h
                  obtain ⟨pre2, cl, hp2, hcl⟩ := ihe (skipWs r2) (acc ++ [v1]) v r h
                  have er2 : r2.takeWhile isJsonWs ++ skipWs r2 = r2 :=
                    List.takeWhile_append_dropWhile ..
                  refine ⟨pre1 ++ cv :: r1.takeWhile isJsonWs ++ c2
                    :: r2.takeWhile isJsonWs ++ pre2, cl, ?_, hcl⟩
                  rw [hp1]
                  conv_lhs => rw [split_ws r1 c2 r2 hs1]
                  conv_lhs => rw [← er2]
                  rw [hp2]
                  simp
                · rw [if_neg hc2] at h
                  by_cases hcb : c2 = ']'
                  · rw [if_pos hcb] at h
                    simp only [Option.some.injEq, Prod.mk.injEq] at h
                    obtain ⟨h1, h2⟩ := h
                    subst h2
                    refine ⟨pre1 ++ cv :: r1.takeWhile isJsonWs, c2, ?_, ?_⟩
                    · rw [hp1]
                      conv_lhs => rw [split_ws r1 c2 r2 hs1]
                      simp
                    · subst hcb
                      decide
                  · rw [if_neg hcb] at h
                    simp at h

end Agents

namespace Agents

lemma parse_enough : ∀ f : Nat,
    (∀ s v r, parseValue f s = some (v, r) →
      ∀ g, 5 * s.length + 10 ≤ g → parseValue g s = some (v, r)) ∧
    (∀ s v r, parseObjBody f s = some (v, r) →
      ∀ g, 5 * s.length + 14 ≤ g → parseObjBody g s = some (v, r)) ∧
    (∀ s acc v r, parseMembers f s acc = some (v, r) →
      ∀ g, 5 * s.length + 13 ≤ g → parseMembers g s acc = some (v, r)) ∧
    (∀ s v r, parseArrBody f s = some (v, r) →
      ∀ g, 5 * s.length + 14 ≤ g → parseArrBody g s = some (v, r)) ∧
    (∀ s acc v r, parseElems f s acc = some (v, r) →
      ∀ g, 5 * s.length + 13 ≤ g → parseElems g s acc = some (v, r)) := by
  intro f
  induction f with
  | zero =>
      refine ⟨?_, ?_, ?_, ?_, ?_⟩
      · intro s v r h; exact absurd h (by rw [show parseValue 0 s = none from rfl]; simp)
      · intro s v r h
        exact absurd h (by rw [show parseObjBody 0 s = none from rfl]; simp)
      · intro s acc v r h
        exact absurd h (by rw [show parseMembers 0 s acc = none from rfl]; simp)
      · intro s v r h
        exact absurd h (by rw [show parseArrBody 0 s = none from rfl]; simp)
      · intro s acc v r h
        exact absurd h (by rw [show parseElems 0 s acc = none from rfl]; simp)
  | succ f ih =>
      obtain ⟨ihv, iho, ihm, iha, ihe⟩ := ih
      refine ⟨?_, ?_, ?_, ?_, ?_⟩
      -- parseValue
      · intro s v r h g hg
        cases s with
        | nil =>
            exact absurd h (by rw [show parseValue (f + 1) [] = none from rfl]; simp)
        | cons c rest =>
            obtain ⟨g', rfl⟩ : ∃ g', g = g' + 1 :=
              ⟨g - 1, by simp only [List.length_cons] at hg; omega⟩
            rw [parseValue] at h
            rw [parseValue]
            by_cases hq : c = '"'
            · rw [if_pos hq] at h ⊢
              exact h
            · rw [if_neg hq] at h ⊢
              by_cases hob : c = '{'
              · rw [if_pos hob] at h ⊢
                refine iho (skipWs rest) v r h g' ?_
                have hl : (skipWs rest).length ≤ rest.length :=
                  length_dropWhile_le isJsonWs rest
                simp only [List.length_cons] at hg
                omega
              · rw [if_neg hob] at h ⊢
                by_cases hab : c = '['
                · rw [if_pos hab] at h ⊢
                  refine iha (skipWs rest) v r h g' ?_
                  have hl : (skipWs rest).length ≤ rest.length :=
                    length_dropWhile_le isJsonWs rest
                  simp only [List.length_cons] at hg
                  omega
                · rw [if_neg hab] at h ⊢
                  exact h
      -- parseObjBody
      · intro s v r h g hg
        cases s with
        | nil =>
            obtain ⟨g', rfl⟩ : ∃ g', g = g' + 1 := ⟨g - 1, by omega⟩
            rw [show parseObjBody (f + 1) [] = parseMembers f [] [] from rfl] at h
            rw [show parseObjBody (g' + 1) [] = parseMembers g' [] [] from rfl]
            refine ihm [] [] v r h g' ?_
            simp only [List.length_nil] at hg ⊢
            omega
        | cons c r' =>
            obtain ⟨g', rfl⟩ : ∃ g', g = g' + 1 :=
              ⟨g - 1, by simp only [List.length_cons] at hg; omega⟩
            rw [parseObjBody_cons] at h
            rw [parseObjBody_cons]
            by_cases hb : c = '}'
            · rw [if_pos hb] at h ⊢
              exact h
            · rw [if_neg hb] at h ⊢
              refine ihm (c :: r') [] v r h g' ?_
              simp only [List.length_cons] at hg ⊢
              omega
      -- parseMembers
      · intro s acc v r h g hg
        cases s with
        | nil =>
            exact absurd h
              (by rw [show parseMembers (f + 1) [] acc = none from rfl]; simp)
        | cons c rest =>
            obtain ⟨g', rfl⟩ : ∃ g', g = g' + 1 :=
              ⟨g - 1, by simp only [List.length_cons] at hg; omega⟩
            rw [parseMembers] at h
            rw [parseMembers]
            by_cases hq : c = '"'
            · rw [if_pos hq] at h ⊢
              cases hsb : parseStringBody rest with
              | none => simp [hsb] at h
              | some p =>
                  obtain ⟨k, r1⟩ := p
                  simp only [hsb] at h ⊢
                  cases hs1 : skipWs r1 with
                  | nil => simp [hs1] at h
                  | cons c2 r3 =>
                      simp only [hs1] at h ⊢
                      by_cases hc2 : c2 = ':'
                      · rw [if_pos hc2] at h ⊢
                        cases hv : parseValue f (skipWs r3) with
                        | none => simp [hv] at h
                        | some p2 =>
                            obtain ⟨v1, r4⟩ := p2
                            simp only [hv] at h
                            obtain ⟨pre1, hpre1⟩ :=
                              parseStringBody_closes rest.length rest le_rfl k r1 hsb
                            have l1 := congrArg List.length hpre1
                            simp only [List.length_append, List.length_cons] at l1
                            have l2 : (skipWs r1).length ≤ r1.length :=
                              length_dropWhile_le isJsonWs r1
                            rw [hs1] at l2
                            simp only [List.length_cons] at l2
                            have l3 : (skipWs r3).length ≤ r3.length :=
                              length_dropWhile_le isJsonWs r3
                            simp only [List.length_cons] at hg
                            have hv' : parseValue g' (skipWs r3) = some (v1, r4) :=
                              ihv (skipWs r3) v1 r4 hv g' (by omega)
                            simp only [hv']
                            cases hs4 : skipWs r4 with
                            | nil => simp [hs4] at h
                            | cons c3 r6 =>
                                simp only [hs4] at h ⊢
                                by_cases h3c : c3 = ','
                                · rw [if_pos h3c] at h ⊢
                                  obtain ⟨pre2, cv, hpre2, hcv⟩ :=
                                    (parse_consumes f).1 (skipWs r3) v1 r4 hv
                                  have l4 := congrArg List.length hpre2
                                  simp only [List.length_append, List.length_cons] at l4
                                  have l5 : (skipWs r4).length ≤ r4.length :=
                                    length_dropWhile_le isJsonWs r4
                                  rw [hs4] at l5
                                  simp only [List.length_cons] at l5
                                  have l6 : (skipWs r6).length ≤ r6.length :=
                                    length_dropWhile_le isJsonWs r6
                                  refine ihm (skipWs r6) (setKey acc k v1) v r h g' ?_
                                  omega
                                · rw [if_neg h3c] at h ⊢
                                  exact h
                      · rw [if_neg hc2] at h ⊢
                        exact h
            · rw [if_neg hq] at h ⊢
              exact h
      -- parseArrBody
      · intro s v r h g hg
        cases s with
        | nil =>
            obtain ⟨g', rfl⟩ : ∃ g', g = g' + 1 := ⟨g - 1, by omega⟩
            rw [show parseArrBody (f + 1) [] = parseElems f [] [] from rfl] at h
            rw [show parseArrBody (g' + 1) [] = parseElems g' [] [] from rfl]
            refine ihe [] [] v r h g' ?_
            simp only [List.length_nil] at hg ⊢
            omega
        | cons c r' =>
            obtain ⟨g', rfl⟩ : ∃ g', g = g' + 1 :=
              ⟨g - 1, by simp only [List.length_cons] at hg; omega⟩
            rw [parseArrBody_cons] at h
            rw [parseArrBody_cons]
            by_cases hb : c = ']'
            · rw [if_pos hb] at h ⊢
              exact h
            · rw [if_neg hb] at h ⊢
              refine ihe (c :: r') [] v r h g' ?_
              simp only [List.length_cons] at hg ⊢
              omega
      -- parseElems
      · intro s acc v r h g hg
        obtain ⟨g', rfl⟩ : ∃ g', g = g' + 1 := ⟨g - 1, by omega⟩
        rw [parseElems] at h
        rw [parseElems]
        cases hv : parseValue f s with
        | none => simp [hv] at h
        | some p =>
            obtain ⟨v1, r1⟩ := p
            simp only [hv] at h
            have hv' : parseValue g' s = some (v1, r1) :=
              ihv s v1 r1 hv g' (by omega)
            simp only [hv']
            cases hs1 : skipWs r1 with
            | nil => simp [hs1] at h
            | cons c2 r2 =>
                simp only [hs1] at h ⊢
                by_cases hc2 : c2 = ','
                · rw [if_pos hc2] at h ⊢
                  obtain ⟨pre1, cv, hp1, hcv⟩ := (parse_consumes f).1 s v1 r1 hv
                  have l1 := congrArg List.length hp1
                  simp only [List.length_append, List.length_cons] at l1
                  have l2 : (skipWs r1).length ≤ r1.length :=
                    length_dropWhile_le isJsonWs r1
                  rw [hs1] at l2
                  simp only [List.length_cons] at l2
                  have l3 : (skipWs r2).length ≤ r2.length :=
                    length_dropWhile_le isJsonWs r2
                  refine ihe (skipWs r2) (acc ++ [v1]) v r h g' ?_
                  omega
                · rw [if_neg hc2] at h ⊢
                  exact h

end Agents

namespace Agents

lemma not_jsonWs_of_not_pyWs (c : Char) (h : isPyWs c = false) : isJsonWs c = false := by
  cases hcc : isJsonWs c
  · rfl
  · rw [isPyWs_of_isJsonWs c hcc] at h
    cases h

lemma parseValue_badstart (f : Nat) (c : Char) (r : List Char)
    (h : c = '\x0b' ∨ c = '\x0c') : parseValue f (c :: r) = none := by
  cases f with
  | zero => rfl
  | succ f =>
      rcases h with h | h <;> subst h <;> rw [parseValue] <;>
        simp [List.isPrefixOf, Char.isDigit]

lemma skipWs_dropWhile_py (s : List Char) :
    (∃ c r, skipWs s = c :: r ∧ (c = '\x0b' ∨ c = '\x0c')) ∨
      skipWs (s.dropWhile isPyWs) = skipWs s := by
  induction s with
  | nil => right; rfl
  | cons a s' ih =>
      by_cases hj : isJsonWs a = true
      · have hp : isPyWs a = true := isPyWs_of_isJsonWs a hj
        rw [show skipWs (a :: s') = skipWs s' from by
          simp [skipWs, List.dropWhile_cons, hj]]
        rw [List.dropWhile_cons_of_pos hp]
        exact ih
      · by_cases hp : isPyWs a = true
        · left
          refine ⟨a, s', by simp [skipWs, List.dropWhile_cons, hj], ?_⟩
          simp only [isPyWs, Bool.or_eq_true, decide_eq_true_eq] at hp
          simp only [isJsonWs, Bool.or_eq_true, decide_eq_true_eq, not_or] at hj
          rcases hp with ((((h1 | h1) | h1) | h1) | h1) | h1
          · exact absurd h1 hj.1.1.1
          · exact absurd h1 hj.1.1.2
          · exact absurd h1 hj.1.2
          · exact absurd h1 hj.2
          · exact Or.inl h1
          · exact Or.inr h1
        · right
          rw [List.dropWhile_cons_of_neg (by simpa using hp)]

lemma jsonLoads_strip (s : List Char) (v : JsonValue) (h : json_loads s = some v) :
    json_loads (pyStrip s) = some v := by
  rw [json_loads] at h
  cases hp : parseValue (5 * s.length + 10) (skipWs s) with
  | none => rw [hp] at h; simp at h
  | some p =>
      obtain ⟨v0, rest⟩ := p
      rw [hp] at h
      simp only at h
      by_cases he : (skipWs rest).isEmpty
      · rw [if_pos he] at h
        injection h with h1
        subst h1
        have hrest_json : rest.all isJsonWs = true := by
          have hnil : List.dropWhile isJsonWs rest = [] := by
            simpa [skipWs, List.isEmpty_iff] using he
          have := List.dropWhile_eq_nil_iff.mp hnil
          simp only [List.all_eq_true]
          exact fun x hx => this x hx
        rcases skipWs_dropWhile_py s with ⟨c, rr, hskip, hbad⟩ | hfront
        · rw [hskip, parseValue_badstart _ c rr hbad] at hp
          exact absurd hp (by simp)
        · obtain ⟨pre, cl, hdec, hcl⟩ :=
            (parse_consumes (5 * s.length + 10)).1 (skipWs s) v0 rest hp
          have hq : skipWs s = (pre ++ [cl]) ++ rest := by rw [hdec]; simp
          have hpush := (parse_push rest hrest_json (5 * s.length + 10)).1 (pre ++ [cl])
          rw [← hq, hp] at hpush
          cases hcore : parseValue (5 * s.length + 10) (pre ++ [cl]) with
          | none => rw [hcore] at hpush; simp at hpush
          | some p2 =>
              obtain ⟨v2, r2⟩ := p2
              rw [hcore] at hpush
              simp only [Option.map_some', Option.some.injEq, Prod.mk.injEq] at hpush
              obtain ⟨hv2, hr2⟩ := hpush
              have hr2nil : r2 = [] := append_cancel_nil r2 rest hr2.symm
              subst hr2nil
              subst hv2
              -- the stripped string and its decomposition
              have hb_all : ((s.dropWhile isPyWs).takeWhile isJsonWs).all isJsonWs :=
                List.all_takeWhile
              have hu_dec : s.dropWhile isPyWs
                  = (s.dropWhile isPyWs).takeWhile isJsonWs ++ ((pre ++ [cl]) ++ rest) := by
                conv_lhs => rw [← List.takeWhile_append_dropWhile (p := isJsonWs)
                  (l := s.dropWhile isPyWs)]
                congr 1
                rw [show List.dropWhile isJsonWs (s.dropWhile isPyWs)
                    = skipWs (s.dropWhile isPyWs) from rfl, hfront, hq]
              have hrest_py : ∀ x ∈ rest, isPyWs x = true := by
                intro x hx
                exact isPyWs_of_isJsonWs x (List.all_eq_true.mp hrest_json x hx)
              have hdrop_rev : rest.reverse.dropWhile isPyWs = [] := by
                apply List.dropWhile_eq_nil_iff.mpr
                intro x hx
                exact hrest_py x (List.mem_reverse.mp hx)
              have hstrip : pyStrip s
                  = (s.dropWhile isPyWs).takeWhile isJsonWs ++ (pre ++ [cl]) := by
                rw [pyStrip, stripEnd]
                conv_lhs => rw [hu_dec]
                rw [show ((s.dropWhile isPyWs).takeWhile isJsonWs
                      ++ ((pre ++ [cl]) ++ rest)).reverse
                    = rest.reverse ++ (cl
                      :: (pre.reverse ++ ((s.dropWhile isPyWs).takeWhile isJsonWs).reverse))
                    from by simp]
                rw [List.dropWhile_append]
                simp only [hdrop_rev, List.isEmpty_nil, if_true]
                rw [List.dropWhile_cons_of_neg (by simp [hcl])]
                simp
              have hhead_core : List.dropWhile isJsonWs (pre ++ [cl]) = pre ++ [cl] := by
                cases hpre0 : pre with
                | nil =>
                    simp only [List.nil_append]
                    rw [List.dropWhile_cons_of_neg
                      (by simp [not_jsonWs_of_not_pyWs cl hcl])]
                | cons p0 pre' =>
                    have hq' : List.dropWhile isJsonWs s = p0 :: (pre' ++ [cl] ++ rest) := by
                      rw [show List.dropWhile isJsonWs s = skipWs s from rfl, hq, hpre0]
                      simp
                    have h0 := dropWhile_head_false isJsonWs s p0 (pre' ++ [cl] ++ rest) hq'
                    simp only [List.cons_append]
                    rw [List.dropWhile_cons_of_neg (by simp [h0])]
              have hsw : skipWs (pyStrip s) = pre ++ [cl] := by
                rw [hstrip, skipWs, List.dropWhile_append]
                have hbnil : List.dropWhile isJsonWs
                    ((s.dropWhile isPyWs).takeWhile isJsonWs) = [] := by
                  apply List.dropWhile_eq_nil_iff.mpr
                  intro x hx
                  exact List.all_eq_true.mp hb_all x hx
                simp only [hbnil, List.isEmpty_nil, if_true]
                exact hhead_core
              have hlen : 5 * (pre ++ [cl]).length + 10 ≤ 5 * (pyStrip s).length + 10 := by
                have := congrArg List.length hstrip
                simp only [List.length_append] at this ⊢
                omega
              have hcore' := (parse_enough (5 * s.length + 10)).1 (pre ++ [cl]) v0 []
                hcore (5 * (pyStrip s).length + 10) hlen
              rw [json_loads, hsw, hcore']
              simp [skipWs]
      · rw [if_neg he] at h
        exact absurd h (by simp)

end Agents

namespace Agents

/-- **C8** (counterexample): the spec's fence round-trip fails for a
well-formed response that happens to contain a ``` fence marker inside a
JSON string value.  `{"a":"```"}` parses directly to an object whose `"a"`
value is the string `` ``` ``, but after wrapping in markdown fences the
`replace("```","")` step also deletes the backticks inside the string
value, so extraction of the fenced text yields `{"a":""}` — a different
object. -/
theorem C8_counterexample :
    json_loads "\x7b\"a\":\"```\"\x7d".data
        = some (.obj [("a".data, .str "```".data)]) ∧
    parse_json_safely (wrapFences "\x7b\"a\":\"```\"\x7d".data)
        = some (.obj [("a".data, .str [])]) ∧
    parse_json_safely (wrapFences "\x7b\"a\":\"```\"\x7d".data)
        ≠ parse_json_safely "\x7b\"a\":\"```\"\x7d".data := by
  refine ⟨rfl, rfl, ?_⟩
  intro hcon
  rw [show parse_json_safely (wrapFences "\x7b\"a\":\"```\"\x7d".data)
      = some (.obj [("a".data, .str [])]) from rfl] at hcon
  rw [show parse_json_safely "\x7b\"a\":\"```\"\x7d".data
      = some (.obj [("a".data, .str "```".data)]) from rfl] at hcon
  injection hcon with h1
  injection h1 with h2
  injection h2 with h3 h4
  injection h3 with h5 h6
  injection h6 with h7
  exact absurd h7.symm (by decide)

/-- **C8** (amended): for a well-formed generation response — a string that
parses directly as a JSON object — that does not contain the fence marker
``` anywhere, wrapping it in markdown fences (```json before, ``` after)
and running JSON extraction yields the same object as extracting the
unfenced response: the fenced text falls through the direct parse to the
fence-stripping heuristic, whose replacements recover the original string
exactly. -/
theorem C8_fence_roundtrip (s : List Char) (o : List (List Char × JsonValue))
    (h1 : json_loads s = some (.obj o))
    (h2 : containsSub "```".data s = false) :
    parse_json_safely (wrapFences s) = some (.obj o) ∧
    parse_json_safely s = some (.obj o) := by
  have hw : json_loads (wrapFences s) = none := by
    rw [show wrapFences s = '`' :: (("``json".data ++ s) ++ "```".data) from by
      simp [wrapFences]]
    exact json_loads_backtick _
  constructor
  · rw [parse_json_safely]
    simp only [hw]
    rw [heuristic2_clean s h2, jsonLoads_strip s (.obj o) h1]
  · rw [parse_json_safely]
    simp only [h1]

/-- Witness for `C8_fence_roundtrip` at the response `{"x":1}`. -/
theorem C8_fence_roundtrip_witness :
    json_loads "\x7b\"x\":1\x7d".data = some (.obj [("x".data, .num "1".data)]) ∧
    containsSub "```".data "\x7b\"x\":1\x7d".data = false ∧
    (parse_json_safely (wrapFences "\x7b\"x\":1\x7d".data)
        = some (.obj [("x".data, .num "1".data)]) ∧
     parse_json_safely "\x7b\"x\":1\x7d".data
        = some (.obj [("x".data, .num "1".data)])) :=
  ⟨rfl, rfl, C8_fence_roundtrip "\x7b\"x\":1\x7d".data [("x".data, .num "1".data)] rfl rfl⟩

end Agents
